import Mathlib

set_option maxRecDepth 100000

/-!
Verification of the img-to-gpx core against its natural-language specification.

The sources are a TypeScript/React application.  The algorithmic core embedded
here consists of:
* the 3-point affine georeferencing solver `computeAffineTransform` and its
  inner Gaussian-elimination routine `solve` (src/unnamed/part_002),
* `applyAffineTransform` and the pixel-path projection (`affineMapPoints`),
* the GPX serialisation `createGPXContent`,
* the session state handled by `App.tsx` (`resetToUpload`,
  `handleReferenceImageClick`, `handleMapClick`).

JavaScript numbers are modelled by `JSNum := Option ℚ`: `some q` is a finite
double, idealised as an exact rational, and `none` stands for any non-finite
value (`NaN` or `±Infinity`).  Arithmetic is exact on finite operands;
dividing by zero, or operating on a non-finite operand, yields `none`.  This
collapses `NaN` and `±Infinity`; in every concrete evaluation appearing below
the non-finite values produced by the code are in fact `NaN`, on which the
model agrees with IEEE semantics (NaN propagates through `+ - * /`, and `>`
comparisons involving NaN are false).
-/

namespace ImgToGpx

/-- A JavaScript number: `some q` = finite value, `none` = non-finite. -/
abbrev JSNum := Option ℚ

/-- JS addition. -/
def jadd : JSNum → JSNum → JSNum
  | some a, some b => some (a + b)
  | _, _ => none

/-- JS subtraction. -/
def jsub : JSNum → JSNum → JSNum
  | some a, some b => some (a - b)
  | _, _ => none

/-- JS multiplication. -/
def jmul : JSNum → JSNum → JSNum
  | some a, some b => some (a * b)
  | _, _ => none

/-- JS division; division by zero produces a non-finite value. -/
def jdiv : JSNum → JSNum → JSNum
  | some a, some b => if b = 0 then none else some (a / b)
  | _, _ => none

/-- `Math.abs`. -/
def jabs : JSNum → JSNum
  | some a => some |a|
  | _ => none

/-- JS `>` comparison: false whenever an operand is `NaN`. -/
def jgtb : JSNum → JSNum → Bool
  | some a, some b => decide (b < a)
  | _, _ => false

/-! ### Session reference-point state

`App.tsx` keeps the collected reference points in a `referencePoints : ReferencePoint[]`
state variable.  Pixel coordinates come in through `handleReferenceImageClick`
(image clicks) and geographic coordinates through `handleMapClick` (map clicks). -/

/-- The frontend `ReferencePoint` record (`src/unnamed/part_006`): pixel
coordinates, geographic coordinates once placed, and a display name. -/
structure ReferencePoint where
  imagePoint : ℚ × ℚ
  mapPoint : Option (ℚ × ℚ)
  name : String
deriving DecidableEq

/-- Core of `handleReferenceImageClick` (`App.tsx` lines 1126–1147): given the
pixel position of the click, append a new reference point with no map
coordinate yet, but only while fewer than 3 points exist. -/
def handleReferenceImageClick (pts : List ReferencePoint) (x y : ℚ) :
    List ReferencePoint :=
  if pts.length < 3 then
    pts ++ [{ imagePoint := (x, y), mapPoint := none,
              name := "Point " ++ toString (pts.length + 1) }]
  else pts

/-- Helper mirroring `findIndex(p => p.mapPoint === null)` followed by the
in-place update in `handleMapClick`: set the map coordinate of the first
point that does not have one; if none is pending, leave the list unchanged. -/
def fillFirstPending : List ReferencePoint → ℚ × ℚ → List ReferencePoint
  | [], _ => []
  | p :: ps, g =>
    if p.mapPoint = none then { p with mapPoint := some g } :: ps
    else p :: fillFirstPending ps g

/-- Core of `handleMapClick` (`App.tsx` lines 1090–1102). -/
def handleMapClick (pts : List ReferencePoint) (lat lng : ℚ) :
    List ReferencePoint :=
  fillFirstPending pts (lat, lng)

/-- The reference-point lists reachable in a session: starting from the empty
list, any interleaving of image clicks and map clicks. -/
inductive ReachableRefState : List ReferencePoint → Prop
  | empty : ReachableRefState []
  | imageClick (s : List ReferencePoint) (x y : ℚ) :
      ReachableRefState s → ReachableRefState (handleReferenceImageClick s x y)
  | mapClick (s : List ReferencePoint) (lat lng : ℚ) :
      ReachableRefState s → ReachableRefState (handleMapClick s lat lng)

/-- A slot is pending when its pixel is set but its geo coordinate is not.
In this model every slot in the list has its pixel set, so pending means
`mapPoint = none`. -/
def pendingCount (pts : List ReferencePoint) : Nat :=
  (pts.filter (fun p => p.mapPoint = none)).length

/-- The fully-paired slots form a prefix: no paired slot appears after a
pending one. -/
def pairedPrefix (pts : List ReferencePoint) : Prop :=
  ∃ a b : List ReferencePoint,
    pts = a ++ b ∧ (∀ p ∈ a, p.mapPoint ≠ none) ∧ (∀ p ∈ b, p.mapPoint = none)

/-! ### Whole-app state and `resetToUpload` -/

/-- The `App` component state (`App.tsx` lines 1014–1023).  `image` and
`imagePreview` carry opaque identities of the `File` object and its object
URL; `points` is the traced pixel path returned by the backend (reduced to
its point list); slider values for overlay opacity/contrast are cosmetic and
omitted. -/
structure AppState where
  image : Option Nat
  imagePreview : Option Nat
  points : Option (List (ℚ × ℚ))
  error : Option String
  currentStep : Nat
  referencePoints : List ReferencePoint
  searchError : Option String

/-- `resetToUpload` (`App.tsx` lines 1069–1078): clears the image, the
preview, the traced points and the error, and returns to step 1.  The
`referencePoints` and `searchError` state variables are not touched by the
handler. -/
def resetToUpload (s : AppState) : AppState :=
  { s with image := none, imagePreview := none, points := none,
           error := none, currentStep := 1 }

/-! ### GPX serialisation

`createGPXContent` (`MapProjection.tsx` lines 12–37 and `src/unnamed/part_002`
lines 72–97) renders the projected geographic points into a GPX 1.1 document
by string templating.  `now` stands for the `new Date().toISOString()` value
captured once at the top of the function, and `showNum` for JS
number-to-string conversion (whose exact digits are irrelevant here; the
theorems only assume the rendering contains no markup characters, which is
true of JS number formatting). -/

/-- The string template applied to each `[lat, lng]` pair inside
`points.map(...)` in `createGPXContent`. -/
def trkptBlock (showNum : ℚ → String) (now : String) (p : ℚ × ℚ) : String :=
  "    <trkpt lat=\"" ++ showNum p.1 ++ "\" lon=\"" ++ showNum p.2
    ++ "\">\n      <time>" ++ now ++ "</time>\n    </trkpt>"

/-- `createGPXContent`: the full GPX 1.1 document. -/
def createGPXContent (showNum : ℚ → String) (now : String)
    (points : List (ℚ × ℚ)) : String :=
  let trackPoints := String.intercalate "\n" (points.map (trkptBlock showNum now))
  "<?xml version=\"1.0\" encoding=\"UTF-8\"?>\n<gpx version=\"1.1\" creator=\"Image to GPX Converter\"\n  xmlns=\"http://www.topografix.com/GPX/1/1\"\n  xmlns:xsi=\"http://www.w3.org/2001/XMLSchema-instance\"\n  xsi:schemaLocation=\"http://www.topografix.com/GPX/1/1 http://www.topografix.com/GPX/1/1/gpx.xsd\">\n  <metadata>\n    <time>" ++ now ++ "</time>\n  </metadata>\n  <trk>\n    <name>Converted Track</name>\n    <trkseg>\n" ++ trackPoints ++ "\n    </trkseg>\n  </trk>\n</gpx>"

/-! Scanners over the generated document.  `scanAt pat emit s` walks the
character list `s`; at every position where `pat` occurs it records
`emit rest`, where `rest` is the remainder after the first matched
character. -/

/-- Generic left-to-right scanner. -/
def scanAt {α : Type} (pat : List Char) (emit : List Char → α) :
    List Char → List α
  | [] => []
  | c :: cs =>
    (if pat.isPrefixOf (c :: cs) then [emit cs] else []) ++ scanAt pat emit cs

/-- Number of occurrences of `pat` in `s`. -/
def countOcc (pat : List Char) (s : List Char) : Nat :=
  (scanAt pat (fun _ => ()) s).length

/-- The contents of every `<time>` element, in document order: at each
occurrence of the opening tag, the characters up to the next `<`. -/
def extractTimes (s : List Char) : List String :=
  scanAt "<time>".data
    (fun cs => String.mk ((cs.drop 5).takeWhile (fun d => d ≠ '<'))) s

/-- The `lat`/`lon` attribute values of every `<trkpt>` element, in document
order. -/
def extractTrkpts (s : List Char) : List (String × String) :=
  scanAt "<trkpt lat=\"".data
    (fun cs =>
      let afterLat := cs.drop 11
      let latS := afterLat.takeWhile (fun d => d ≠ '"')
      let afterLon := (afterLat.drop latS.length).drop 7
      (String.mk latS, String.mk (afterLon.takeWhile (fun d => d ≠ '"')))) s

/-! Named character regions of the generated document, used to state the
scanning lemmas.  `gpxH1` is the document prefix up to and including the
metadata `<time>` open tag, `gpxH2` the part between the metadata timestamp
and the first track point, `gpxH3` the closing part. -/

/-- Document prefix before the metadata timestamp. -/
def gpxH1 : List Char :=
  ("<?xml version=\"1.0\" encoding=\"UTF-8\"?>\n<gpx version=\"1.1\" creator=\"Image to GPX Converter\"\n  xmlns=\"http://www.topografix.com/GPX/1/1\"\n  xmlns:xsi=\"http://www.w3.org/2001/XMLSchema-instance\"\n  xsi:schemaLocation=\"http://www.topografix.com/GPX/1/1 http://www.topografix.com/GPX/1/1/gpx.xsd\">\n  <metadata>\n    <time>").data

/-- Document part between the metadata timestamp and the track points. -/
def gpxH2 : List Char :=
  ("</time>\n  </metadata>\n  <trk>\n    <name>Converted Track</name>\n    <trkseg>\n").data

/-- Closing part of the document. -/
def gpxH3 : List Char :=
  ("\n    </trkseg>\n  </trk>\n</gpx>").data

/-- The characters of `sep`-interspersed strings: what `intercalate`
appends after its first element. -/
def joinData (sep : List Char) : List String → List Char
  | [] => []
  | b :: bs => sep ++ b.data ++ joinData sep bs

/-! ### The affine solver

`computeAffineTransform` (`src/unnamed/part_002` lines 7–57) builds the 6×6
interleaved linear system for the affine parameters `(a,b,c,d,e,f)` with
`X = a·x + b·y + c`, `Y = d·x + e·y + f` and solves it with the inner
function `solve`: Gaussian elimination with partial pivoting followed by
back substitution, entirely unguarded (a zero pivot is divided by).

The in-place array mutation of the JS code is rendered functionally: the
matrix `m` and vector `b` are functions from indices; each loop becomes a
fold over the corresponding concrete index list; a row update reads only
entries that the loop iteration has not yet overwritten (the multiplier `c`
is computed before its row is rewritten, and pivot row `i` is never written
by iteration `i`), so the simultaneous functional update below computes the
same values as the sequential JS assignments. -/

/-- The loop indices `i+1 … 5` (ascending, as in the JS `for` loops). -/
def ks (i : Fin 6) : List (Fin 6) := (List.finRange 6).filter (fun k => i < k)

/-- Elimination state: matrix `m` and right-hand side `b`. -/
@[ext] structure GaussJ where
  m : Fin 6 → Fin 6 → JSNum
  b : Fin 6 → JSNum

/-- Partial-pivot search: `let maxRow = i; for k in i+1..5: if |m[k][i]| >
|m[maxRow][i]| maxRow = k`. -/
def maxRowJ (m : Fin 6 → Fin 6 → JSNum) (i : Fin 6) : Fin 6 :=
  (ks i).foldl (fun r k => if jgtb (jabs (m k i)) (jabs (m r i)) then k else r) i

/-- Row swap `[m[i], m[r]] = [m[r], m[i]]` (and the same for `b`). -/
def swapRowsJ (s : GaussJ) (i r : Fin 6) : GaussJ where
  m := fun k => if k = i then s.m r else if k = r then s.m i else s.m k
  b := fun k => if k = i then s.b r else if k = r then s.b i else s.b k

/-- One elimination pass below row `i`: for each `k > i`, with
`c = m[k][i] / m[i][i]`, subtract `c` times row `i` from row `k` on columns
`j ≥ i`, and `c * b[i]` from `b[k]`. -/
def elimBelowJ (i : Fin 6) (s : GaussJ) : GaussJ where
  m := fun k j =>
    if i < k ∧ i ≤ j then
      jsub (s.m k j) (jmul (jdiv (s.m k i) (s.m i i)) (s.m i j))
    else s.m k j
  b := fun k =>
    if i < k then
      jsub (s.b k) (jmul (jdiv (s.m k i) (s.m i i)) (s.b i))
    else s.b k

/-- One iteration of the outer `for (let i = 0; i < 6; i++)` loop. -/
def stepJ (i : Fin 6) (s : GaussJ) : GaussJ :=
  elimBelowJ i (swapRowsJ s i (maxRowJ s.m i))

/-- The outer loop, performing steps `0 … n-1`. -/
def elimLoopJ (s : GaussJ) : Nat → GaussJ
  | 0 => s
  | n + 1 => if h : n < 6 then stepJ ⟨n, h⟩ (elimLoopJ s n) else elimLoopJ s n

/-- Back-substitution body for row `i`:
`let sum = b[i]; for j in i+1..5: sum -= m[i][j]*x[j]; x[i] = sum/m[i][i]`. -/
def backRowJ (s : GaussJ) (x : Fin 6 → JSNum) (i : Fin 6) : Fin 6 → JSNum :=
  Function.update x i
    (jdiv ((ks i).foldl (fun acc j => jsub acc (jmul (s.m i j) (x j))) (s.b i))
      (s.m i i))

/-- Back substitution `for (let i = 5; i >= 0; i--)`, starting from
`Array(6).fill(0)`. -/
def backSubJ (s : GaussJ) : Fin 6 → JSNum :=
  ((List.finRange 6).reverse).foldl (backRowJ s) (fun _ => some 0)

/-- The inner function `solve(A, B)` of `computeAffineTransform`. -/
def solve (A : Fin 6 → Fin 6 → JSNum) (B : Fin 6 → JSNum) : List JSNum :=
  List.ofFn (backSubJ (elimLoopJ ⟨A, B⟩ 6))

/-- The interleaved 6×6 matrix built from the three pixel points
`[[x1,y1,1,0,0,0],[0,0,0,x1,y1,1],…]`. -/
def affineMatrix (p1 p2 p3 : ℚ × ℚ) : Fin 6 → Fin 6 → ℚ :=
  ![![p1.1, p1.2, 1, 0, 0, 0], ![0, 0, 0, p1.1, p1.2, 1],
    ![p2.1, p2.2, 1, 0, 0, 0], ![0, 0, 0, p2.1, p2.2, 1],
    ![p3.1, p3.2, 1, 0, 0, 0], ![0, 0, 0, p3.1, p3.2, 1]]

/-- The right-hand side `B = [X1, Y1, X2, Y2, X3, Y3]` built from the three
geographic points. -/
def affineRhs (q1 q2 q3 : ℚ × ℚ) : Fin 6 → ℚ :=
  ![q1.1, q1.2, q2.1, q2.2, q3.1, q3.2]

/-- `computeAffineTransform(imgPts, mapPts)` for the three pixel points
`p1 p2 p3` and geographic points `q1 q2 q3` (all finite). -/
def computeAffineTransform (p1 p2 p3 q1 q2 q3 : ℚ × ℚ) : List JSNum :=
  solve (fun i j => some (affineMatrix p1 p2 p3 i j))
    (fun i => some (affineRhs q1 q2 q3 i))

/-- `applyAffineTransform(x, y, params)`: destructure the six parameters
(missing entries are `undefined`, i.e. non-finite) and return
`[a*x + b*y + c, d*x + e*y + f]`. -/
def applyAffineTransform (x y : JSNum) (params : List JSNum) : JSNum × JSNum :=
  let a := params.getD 0 none
  let b := params.getD 1 none
  let c := params.getD 2 none
  let d := params.getD 3 none
  let e := params.getD 4 none
  let f := params.getD 5 none
  (jadd (jadd (jmul a x) (jmul b y)) c, jadd (jadd (jmul d x) (jmul e y)) f)

/-- The projection of the traced pixel path (`src/unnamed/part_002` lines
262–266): `points.map(([x, y]) => { const [lng, lat] =
applyAffineTransform(x, y, affineParams); return [lat, lng] })`. -/
def affineMapPoints (params : List JSNum) (points : List (ℚ × ℚ)) :
    List (JSNum × JSNum) :=
  points.map (fun p =>
    let r := applyAffineTransform (some p.1) (some p.2) params
    (r.2, r.1))

/-- The collinearity determinant of the three pixel points: zero exactly when
they are collinear (or not pairwise distinct). -/
def det3 (p1 p2 p3 : ℚ × ℚ) : ℚ :=
  p1.1 * (p2.2 - p3.2) - p1.2 * (p2.1 - p3.1) + (p2.1 * p3.2 - p3.1 * p2.2)

/-! ### Exact-arithmetic mirror of `solve`

For reasoning, the same algorithm over plain rationals (with Lean's total
division).  When every pivot encountered is non-zero this computes, value for
value, what the `JSNum` run computes. -/

/-- Elimination state over exact rationals. -/
@[ext] structure GaussQ where
  m : Fin 6 → Fin 6 → ℚ
  b : Fin 6 → ℚ

/-- Partial-pivot search over exact rationals. -/
def maxRowQ (m : Fin 6 → Fin 6 → ℚ) (i : Fin 6) : Fin 6 :=
  (ks i).foldl (fun r k => if |m r i| < |m k i| then k else r) i

/-- Row swap over exact rationals. -/
def swapRowsQ (s : GaussQ) (i r : Fin 6) : GaussQ where
  m := fun k => if k = i then s.m r else if k = r then s.m i else s.m k
  b := fun k => if k = i then s.b r else if k = r then s.b i else s.b k

/-- One elimination pass below row `i`, over exact rationals. -/
def elimBelowQ (i : Fin 6) (s : GaussQ) : GaussQ where
  m := fun k j =>
    if i < k ∧ i ≤ j then s.m k j - s.m k i / s.m i i * s.m i j else s.m k j
  b := fun k => if i < k then s.b k - s.m k i / s.m i i * s.b i else s.b k

/-- One outer-loop iteration over exact rationals. -/
def stepQ (i : Fin 6) (s : GaussQ) : GaussQ :=
  elimBelowQ i (swapRowsQ s i (maxRowQ s.m i))

/-- The outer loop over exact rationals. -/
def elimLoopQ (s : GaussQ) : Nat → GaussQ
  | 0 => s
  | n + 1 => if h : n < 6 then stepQ ⟨n, h⟩ (elimLoopQ s n) else elimLoopQ s n

/-- Back-substitution body over exact rationals. -/
def backRowQ (s : GaussQ) (x : Fin 6 → ℚ) (i : Fin 6) : Fin 6 → ℚ :=
  Function.update x i
    (((ks i).foldl (fun acc j => acc - s.m i j * x j) (s.b i)) / s.m i i)

/-- Back substitution over exact rationals. -/
def backSubQ (s : GaussQ) : Fin 6 → ℚ :=
  ((List.finRange 6).reverse).foldl (backRowQ s) (fun _ => 0)

/-- The pivot value used (and divided by) at step `i` of a run starting from
`s₀`: the diagonal entry after the partial-pivot row swap of that step. -/
def pivotQ (s₀ : GaussQ) (i : Fin 6) : ℚ :=
  let s := elimLoopQ s₀ i.val
  (swapRowsQ s i (maxRowQ s.m i)).m i i

/-- `v` solves the linear system of state `s`: every row equation holds. -/
def Sol (s : GaussQ) (v : Fin 6 → ℚ) : Prop :=
  ∀ i : Fin 6, (∑ j : Fin 6, s.m i j * v j) = s.b i

/-- Columns `< n` are eliminated: every entry strictly below the diagonal in
the first `n` columns is zero. -/
def Elim (m : Fin 6 → Fin 6 → ℚ) (n : Nat) : Prop :=
  ∀ k j : Fin 6, (j : ℕ) < n → (j : ℕ) < (k : ℕ) → m k j = 0

/-- Kernel triviality of the linear system of a matrix: only the zero vector
is mapped to zero. -/
def kernelTrivial (m : Fin 6 → Fin 6 → ℚ) : Prop :=
  ∀ w : Fin 6 → ℚ, (∀ r : Fin 6, (∑ j : Fin 6, m r j * w j) = 0) → w = 0

/-- A rational elimination state viewed as a JS-number state (all entries
finite). -/
def liftG (s : GaussQ) : GaussJ where
  m := fun i j => some (s.m i j)
  b := fun i => some (s.b i)

/-! ### Road snapping (backend, modelled from the spec) -/

/-- Error taxonomy of the snapping stage. -/
inductive SnapError
  | tooFewPoints
  | httpError (status : Nat)
  | networkError
deriving DecidableEq

/-- Modelled from the spec: the backend `POST /api/snap-points` handler (the
Flask backend is not among the provided sources; only its frontend caller
`handleSnapToRoads` is).  Per §4.4 and §8 of the spec: the path must contain
at least 2 points, and a request with fewer points returns an error without
contacting the external road-snapping service.  The external service is a
parameter `service`; the boolean records whether it was contacted. -/
def snapRequest (service : List (ℚ × ℚ) → Except SnapError (List (ℚ × ℚ)))
    (points : List (ℚ × ℚ)) : Except SnapError (List (ℚ × ℚ)) × Bool :=
  if points.length < 2 then (Except.error SnapError.tooFewPoints, false)
  else (service points, true)

/-- A concrete session state with two pending reference-point slots, obtained
by clicking the image twice without placing any map coordinate. -/
def twoPendingState : List ReferencePoint :=
  [{ imagePoint := (0, 0), mapPoint := none, name := "Point 1" },
   { imagePoint := (1, 0), mapPoint := none, name := "Point 2" }]

/-! ## Theorems -/

/-! Evaluation rules for the `JSNum` operations. -/

@[simp] theorem jadd_some (a b : ℚ) : jadd (some a) (some b) = some (a + b) := rfl

@[simp] theorem jadd_none_left (x : JSNum) : jadd none x = none := by
  cases x <;> rfl

@[simp] theorem jadd_none_right (x : JSNum) : jadd x none = none := by
  cases x <;> rfl

@[simp] theorem jsub_some (a b : ℚ) : jsub (some a) (some b) = some (a - b) := rfl

@[simp] theorem jsub_none_left (x : JSNum) : jsub none x = none := by
  cases x <;> rfl

@[simp] theorem jsub_none_right (x : JSNum) : jsub x none = none := by
  cases x <;> rfl

@[simp] theorem jmul_some (a b : ℚ) : jmul (some a) (some b) = some (a * b) := rfl

@[simp] theorem jmul_none_left (x : JSNum) : jmul none x = none := by
  cases x <;> rfl

@[simp] theorem jmul_none_right (x : JSNum) : jmul x none = none := by
  cases x <;> rfl

@[simp] theorem jdiv_some (a b : ℚ) :
    jdiv (some a) (some b) = if b = 0 then none else some (a / b) := rfl

@[simp] theorem jdiv_none_left (x : JSNum) : jdiv none x = none := by
  cases x <;> rfl

@[simp] theorem jdiv_none_right (x : JSNum) : jdiv x none = none := by
  cases x <;> rfl

@[simp] theorem jabs_some (a : ℚ) : jabs (some a) = some |a| := rfl

@[simp] theorem jabs_none : jabs none = none := rfl

@[simp] theorem jgtb_some (a b : ℚ) : jgtb (some a) (some b) = decide (b < a) := rfl

@[simp] theorem jgtb_none_left (x : JSNum) : jgtb none x = false := by
  cases x <;> rfl

@[simp] theorem jgtb_none_right (x : JSNum) : jgtb x none = false := by
  cases x <;> rfl

/-! The concrete loop-index lists. -/

theorem ks_zero : ks 0 = [1, 2, 3, 4, 5] := by decide

theorem ks_one : ks 1 = [2, 3, 4, 5] := by decide

theorem ks_two : ks 2 = [3, 4, 5] := by decide

theorem ks_three : ks 3 = [4, 5] := by decide

theorem ks_four : ks 4 = [5] := by decide

theorem ks_five : ks 5 = [] := by decide

theorem finRange_six_reverse :
    (List.finRange 6).reverse = [5, 4, 3, 2, 1, 0] := by decide

/-! Entry-wise evaluation of the interleaved system. -/

@[simp] theorem affineMatrix_e00 (p1 p2 p3 : ℚ × ℚ) :
    affineMatrix p1 p2 p3 0 0 = p1.1 := rfl

@[simp] theorem affineMatrix_e01 (p1 p2 p3 : ℚ × ℚ) :
    affineMatrix p1 p2 p3 0 1 = p1.2 := rfl

@[simp] theorem affineMatrix_e02 (p1 p2 p3 : ℚ × ℚ) :
    affineMatrix p1 p2 p3 0 2 = 1 := rfl

@[simp] theorem affineMatrix_e03 (p1 p2 p3 : ℚ × ℚ) :
    affineMatrix p1 p2 p3 0 3 = 0 := rfl

@[simp] theorem affineMatrix_e04 (p1 p2 p3 : ℚ × ℚ) :
    affineMatrix p1 p2 p3 0 4 = 0 := rfl

@[simp] theorem affineMatrix_e05 (p1 p2 p3 : ℚ × ℚ) :
    affineMatrix p1 p2 p3 0 5 = 0 := rfl

@[simp] theorem affineMatrix_e10 (p1 p2 p3 : ℚ × ℚ) :
    affineMatrix p1 p2 p3 1 0 = 0 := rfl

@[simp] theorem affineMatrix_e11 (p1 p2 p3 : ℚ × ℚ) :
    affineMatrix p1 p2 p3 1 1 = 0 := rfl

@[simp] theorem affineMatrix_e12 (p1 p2 p3 : ℚ × ℚ) :
    affineMatrix p1 p2 p3 1 2 = 0 := rfl

@[simp] theorem affineMatrix_e13 (p1 p2 p3 : ℚ × ℚ) :
    affineMatrix p1 p2 p3 1 3 = p1.1 := rfl

@[simp] theorem affineMatrix_e14 (p1 p2 p3 : ℚ × ℚ) :
    affineMatrix p1 p2 p3 1 4 = p1.2 := rfl

@[simp] theorem affineMatrix_e15 (p1 p2 p3 : ℚ × ℚ) :
    affineMatrix p1 p2 p3 1 5 = 1 := rfl

@[simp] theorem affineMatrix_e20 (p1 p2 p3 : ℚ × ℚ) :
    affineMatrix p1 p2 p3 2 0 = p2.1 := rfl

@[simp] theorem affineMatrix_e21 (p1 p2 p3 : ℚ × ℚ) :
    affineMatrix p1 p2 p3 2 1 = p2.2 := rfl

@[simp] theorem affineMatrix_e22 (p1 p2 p3 : ℚ × ℚ) :
    affineMatrix p1 p2 p3 2 2 = 1 := rfl

@[simp] theorem affineMatrix_e23 (p1 p2 p3 : ℚ × ℚ) :
    affineMatrix p1 p2 p3 2 3 = 0 := rfl

@[simp] theorem affineMatrix_e24 (p1 p2 p3 : ℚ × ℚ) :
    affineMatrix p1 p2 p3 2 4 = 0 := rfl

@[simp] theorem affineMatrix_e25 (p1 p2 p3 : ℚ × ℚ) :
    affineMatrix p1 p2 p3 2 5 = 0 := rfl

@[simp] theorem affineMatrix_e30 (p1 p2 p3 : ℚ × ℚ) :
    affineMatrix p1 p2 p3 3 0 = 0 := rfl

@[simp] theorem affineMatrix_e31 (p1 p2 p3 : ℚ × ℚ) :
    affineMatrix p1 p2 p3 3 1 = 0 := rfl

@[simp] theorem affineMatrix_e32 (p1 p2 p3 : ℚ × ℚ) :
    affineMatrix p1 p2 p3 3 2 = 0 := rfl

@[simp] theorem affineMatrix_e33 (p1 p2 p3 : ℚ × ℚ) :
    affineMatrix p1 p2 p3 3 3 = p2.1 := rfl

@[simp] theorem affineMatrix_e34 (p1 p2 p3 : ℚ × ℚ) :
    affineMatrix p1 p2 p3 3 4 = p2.2 := rfl

@[simp] theorem affineMatrix_e35 (p1 p2 p3 : ℚ × ℚ) :
    affineMatrix p1 p2 p3 3 5 = 1 := rfl

@[simp] theorem affineMatrix_e40 (p1 p2 p3 : ℚ × ℚ) :
    affineMatrix p1 p2 p3 4 0 = p3.1 := rfl

@[simp] theorem affineMatrix_e41 (p1 p2 p3 : ℚ × ℚ) :
    affineMatrix p1 p2 p3 4 1 = p3.2 := rfl

@[simp] theorem affineMatrix_e42 (p1 p2 p3 : ℚ × ℚ) :
    affineMatrix p1 p2 p3 4 2 = 1 := rfl

@[simp] theorem affineMatrix_e43 (p1 p2 p3 : ℚ × ℚ) :
    affineMatrix p1 p2 p3 4 3 = 0 := rfl

@[simp] theorem affineMatrix_e44 (p1 p2 p3 : ℚ × ℚ) :
    affineMatrix p1 p2 p3 4 4 = 0 := rfl

@[simp] theorem affineMatrix_e45 (p1 p2 p3 : ℚ × ℚ) :
    affineMatrix p1 p2 p3 4 5 = 0 := rfl

@[simp] theorem affineMatrix_e50 (p1 p2 p3 : ℚ × ℚ) :
    affineMatrix p1 p2 p3 5 0 = 0 := rfl

@[simp] theorem affineMatrix_e51 (p1 p2 p3 : ℚ × ℚ) :
    affineMatrix p1 p2 p3 5 1 = 0 := rfl

@[simp] theorem affineMatrix_e52 (p1 p2 p3 : ℚ × ℚ) :
    affineMatrix p1 p2 p3 5 2 = 0 := rfl

@[simp] theorem affineMatrix_e53 (p1 p2 p3 : ℚ × ℚ) :
    affineMatrix p1 p2 p3 5 3 = p3.1 := rfl

@[simp] theorem affineMatrix_e54 (p1 p2 p3 : ℚ × ℚ) :
    affineMatrix p1 p2 p3 5 4 = p3.2 := rfl

@[simp] theorem affineMatrix_e55 (p1 p2 p3 : ℚ × ℚ) :
    affineMatrix p1 p2 p3 5 5 = 1 := rfl

@[simp] theorem affineRhs_e0 (q1 q2 q3 : ℚ × ℚ) :
    affineRhs q1 q2 q3 0 = q1.1 := rfl

@[simp] theorem affineRhs_e1 (q1 q2 q3 : ℚ × ℚ) :
    affineRhs q1 q2 q3 1 = q1.2 := rfl

@[simp] theorem affineRhs_e2 (q1 q2 q3 : ℚ × ℚ) :
    affineRhs q1 q2 q3 2 = q2.1 := rfl

@[simp] theorem affineRhs_e3 (q1 q2 q3 : ℚ × ℚ) :
    affineRhs q1 q2 q3 3 = q2.2 := rfl

@[simp] theorem affineRhs_e4 (q1 q2 q3 : ℚ × ℚ) :
    affineRhs q1 q2 q3 4 = q3.1 := rfl

@[simp] theorem affineRhs_e5 (q1 q2 q3 : ℚ × ℚ) :
    affineRhs q1 q2 q3 5 = q3.2 := rfl

theorem elimLoopJ_six (s : GaussJ) : elimLoopJ s 6 =
    stepJ 5 (stepJ 4 (stepJ 3 (stepJ 2 (stepJ 1 (stepJ 0 s))))) := rfl

theorem fillFirstPending_length (l : List ReferencePoint) (g : ℚ × ℚ) :
    (fillFirstPending l g).length = l.length := by
  induction l with
  | nil => rfl
  | cons p ps ih =>
    by_cases h : p.mapPoint = none <;> simp [fillFirstPending, h, ih]

theorem fillFirstPending_append_paired (a b : List ReferencePoint) (g : ℚ × ℚ)
    (ha : ∀ p ∈ a, p.mapPoint ≠ none) :
    fillFirstPending (a ++ b) g = a ++ fillFirstPending b g := by
  induction a with
  | nil => rfl
  | cons p ps ih =>
    have hp : ¬ p.mapPoint = none := ha p (by simp)
    have ih' := ih (fun q hq => ha q (by simp [hq]))
    simp [fillFirstPending, hp, ih']

theorem reachable_length_le_three (s : List ReferencePoint)
    (h : ReachableRefState s) : s.length ≤ 3 := by
  induction h with
  | empty => simp
  | imageClick t x y _ ih =>
    unfold handleReferenceImageClick
    by_cases hl : t.length < 3
    · simp [hl]; omega
    · simp [hl]; exact ih
  | mapClick t lat lng _ ih =>
    simpa [handleMapClick, fillFirstPending_length] using ih

/-- Claim C8: every operation keeps the reference-point list at length ≤ 3;
an image click with 3 points present leaves the list unchanged; an accepted
image click appends exactly one new point whose geographic coordinate is
still unset. -/
theorem refpoints_bounded_and_append (s : List ReferencePoint)
    (h : ReachableRefState s) :
    s.length ≤ 3 ∧
      (∀ x y : ℚ, s.length = 3 → handleReferenceImageClick s x y = s) ∧
      (∀ x y : ℚ, s.length < 3 → handleReferenceImageClick s x y =
        s ++ [{ imagePoint := (x, y), mapPoint := none,
                name := "Point " ++ toString (s.length + 1) }]) := by
  refine ⟨reachable_length_le_three s h, ?_, ?_⟩
  · intro x y h3
    simp [handleReferenceImageClick, h3]
  · intro x y hlt
    simp [handleReferenceImageClick, hlt]

/-- Witness for C8 at the empty session. -/
theorem refpoints_bounded_and_append_witness :
    ([] : List ReferencePoint).length ≤ 3 ∧
      (∀ x y : ℚ, ([] : List ReferencePoint).length = 3 →
        handleReferenceImageClick [] x y = []) ∧
      (∀ x y : ℚ, ([] : List ReferencePoint).length < 3 →
        handleReferenceImageClick [] x y =
          [] ++ [{ imagePoint := (x, y), mapPoint := none,
                   name := "Point " ++ toString (([] : List ReferencePoint).length + 1) }]) :=
  refpoints_bounded_and_append [] ReachableRefState.empty

/-- Claim C6 counterexample: the state with two pending slots (pixel set, geo
unset) is reachable — two image clicks with no intervening map click — so "at
most one slot pending at any time" fails on the code. -/
theorem two_pending_slots_reachable :
    ReachableRefState twoPendingState ∧ pendingCount twoPendingState = 2 := by
  constructor
  · have h1 : handleReferenceImageClick [] 0 0 =
        [({ imagePoint := (0, 0), mapPoint := none, name := "Point 1" } :
          ReferencePoint)] := by
      simp [handleReferenceImageClick]; rfl
    have h2 : handleReferenceImageClick
        [({ imagePoint := (0, 0), mapPoint := none, name := "Point 1" } :
          ReferencePoint)] 1 0 = twoPendingState := by
      simp [handleReferenceImageClick, twoPendingState]; rfl
    have := ReachableRefState.imageClick _ 1 0
      (ReachableRefState.imageClick [] 0 0 ReachableRefState.empty)
    rw [h1, h2] at this
    exact this
  · rfl

/-- Claim C6, amended: the code does not keep "at most one pending slot" —
image clicks may stack up to three pending slots.  What does hold at every
reachable state is that the fully-paired slots form a prefix: every pending
slot comes after every paired one (map clicks always fill the first pending
slot, and image clicks append pending slots at the end). -/
theorem reachable_paired_prefix (s : List ReferencePoint)
    (h : ReachableRefState s) : pairedPrefix s := by
  induction h with
  | empty => exact ⟨[], [], rfl, by simp, by simp⟩
  | imageClick t x y _ ih =>
    obtain ⟨a, b, rfl, ha, hb⟩ := ih
    unfold handleReferenceImageClick
    by_cases hl : (a ++ b).length < 3
    · rw [if_pos hl]
      refine ⟨a, b ++ [ReferencePoint.mk (x, y) none
        ("Point " ++ toString ((a ++ b).length + 1))], by simp, ha, ?_⟩
      intro p hp
      rcases List.mem_append.mp hp with hp | hp
      · exact hb p hp
      · simp at hp; subst hp; rfl
    · rw [if_neg hl]
      exact ⟨a, b, rfl, ha, hb⟩
  | mapClick t lat lng _ ih =>
    obtain ⟨a, b, rfl, ha, hb⟩ := ih
    unfold handleMapClick
    rw [fillFirstPending_append_paired a b _ ha]
    cases b with
    | nil => exact ⟨a, [], by simp [fillFirstPending], ha, by simp⟩
    | cons p ps =>
      have hp : p.mapPoint = none := hb p (by simp)
      refine ⟨a ++ [{ p with mapPoint := some (lat, lng) }], ps, ?_, ?_, ?_⟩
      · simp [fillFirstPending, hp]
      · intro q hq
        rcases List.mem_append.mp hq with hq | hq
        · exact ha q hq
        · simp at hq; subst hq; simp
      · intro q hq; exact hb q (by simp [hq])

/-- Witness for the amended C6 at the empty session. -/
theorem reachable_paired_prefix_witness : pairedPrefix [] :=
  reachable_paired_prefix [] ReachableRefState.empty

/-- Claim C3: `resetToUpload` clears the image, preview, traced points and
error and returns to step 1, but leaves the collected reference points in
place — the full reset promised by the spec does not happen for
`referencePoints`. -/
theorem resetToUpload_keeps_referencePoints (s : AppState) :
    (resetToUpload s).referencePoints = s.referencePoints ∧
      (resetToUpload s).image = none ∧
      (resetToUpload s).imagePreview = none ∧
      (resetToUpload s).points = none ∧
      (resetToUpload s).error = none ∧
      (resetToUpload s).currentStep = 1 :=
  ⟨rfl, rfl, rfl, rfl, rfl, rfl⟩

/-- Claim C4: the projection maps each pixel point independently; the output
has the same length and the `i`-th output is the transform applied to the
`i`-th input (with the code's `[lng,lat] → [lat,lng]` reordering). -/
theorem affineMapPoints_pointwise (params : List JSNum)
    (points : List (ℚ × ℚ)) :
    (affineMapPoints params points).length = points.length ∧
      ∀ i : Nat, (affineMapPoints params points)[i]? =
        (points[i]?).map (fun p =>
          ((applyAffineTransform (some p.1) (some p.2) params).2,
           (applyAffineTransform (some p.1) (some p.2) params).1)) := by
  constructor
  · simp [affineMapPoints]
  · intro i
    simp [affineMapPoints]

/-- Claim C5 (spec-modelled backend): a snap request whose path has fewer
than 2 points returns an error and never contacts the snapping service. -/
theorem snapRequest_rejects_short (service :
    List (ℚ × ℚ) → Except SnapError (List (ℚ × ℚ)))
    (points : List (ℚ × ℚ)) (h : points.length < 2) :
    snapRequest service points =
      (Except.error SnapError.tooFewPoints, false) := by
  simp [snapRequest, h]

/-- Witness for C5 on a one-point path. -/
theorem snapRequest_rejects_short_witness :
    [((0 : ℚ), (0 : ℚ))].length < 2 ∧
      snapRequest (fun pts => Except.ok pts) [((0 : ℚ), (0 : ℚ))] =
        (Except.error SnapError.tooFewPoints, false) :=
  ⟨by simp, snapRequest_rejects_short _ _ (by simp)⟩

/-- Claim C9: `computeAffineTransform` is total — for any three pixel/geo
pairs, degenerate or not, it runs its fixed loops and returns exactly six
parameters; there is no error path. -/
theorem computeAffineTransform_total (p1 p2 p3 q1 q2 q3 : ℚ × ℚ) :
    (computeAffineTransform p1 p2 p3 q1 q2 q3).length = 6 := by
  simp [computeAffineTransform, solve]

/-! ### String-scanning toolkit -/

theorem scanAt_skip {α : Type} (u : List Char) (emit : List Char → α)
    (p : List Char) (hp : ∀ c ∈ p, c ≠ '<') (s : List Char) :
    scanAt ('<' :: u) emit (p ++ s) = scanAt ('<' :: u) emit s := by
  induction p with
  | nil => rfl
  | cons c cs ih =>
    have hb : (('<' : Char) == c) = false :=
      beq_eq_false_iff_ne.mpr (fun h => (hp c (by simp)) h.symm)
    have hc : ('<' :: u).isPrefixOf (c :: (cs ++ s)) = false := by
      rw [List.isPrefixOf_cons₂, hb, Bool.false_and]
    rw [List.cons_append]
    rw [show scanAt ('<' :: u) emit (c :: (cs ++ s)) =
      (if ('<' :: u).isPrefixOf (c :: (cs ++ s)) then [emit (cs ++ s)] else [])
        ++ scanAt ('<' :: u) emit (cs ++ s) from rfl]
    rw [hc]
    simp only [Bool.false_eq_true, if_false, List.nil_append]
    exact ih (fun d hd => hp d (by simp [hd]))

theorem takeWhile_append_all {p : Char → Bool} (a b : List Char)
    (ha : ∀ c ∈ a, p c = true) :
    (a ++ b).takeWhile p = a ++ b.takeWhile p := by
  induction a with
  | nil => rfl
  | cons c cs ih =>
    have := ha c (by simp)
    simp [List.takeWhile_cons, this, ih (fun d hd => ha d (by simp [hd]))]

theorem intercalate_go_data (sep : String) (l : List String) (acc : String) :
    (String.intercalate.go acc sep l).data = acc.data ++ joinData sep.data l := by
  induction l generalizing acc with
  | nil => simp [String.intercalate.go, joinData]
  | cons b bs ih =>
    rw [String.intercalate.go, ih, joinData]
    simp

theorem intercalate_data (sep : String) (a : String) (as : List String) :
    (String.intercalate sep (a :: as)).data = a.data ++ joinData sep.data as := by
  rw [String.intercalate, intercalate_go_data]

/-- Character-level decomposition of the generated document (non-empty point
list): header, metadata timestamp, first track-point block, the remaining
blocks each preceded by a newline, and the closing part. -/
theorem createGPXContent_data (showNum : ℚ → String) (now : String)
    (p : ℚ × ℚ) (rest : List (ℚ × ℚ)) :
    (createGPXContent showNum now (p :: rest)).data =
      gpxH1 ++ (now.data ++ (gpxH2 ++ ((trkptBlock showNum now p).data ++
        (joinData ['\n'] (rest.map (trkptBlock showNum now)) ++ gpxH3)))) := by
  show (_ ++ _ ++ _ ++ _ ++ _ : String).data = _
  rw [String.data_append, String.data_append, String.data_append,
    String.data_append, List.map_cons, intercalate_data]
  simp [gpxH1, gpxH2, gpxH3, List.append_assoc]

/-- Character-level decomposition for the empty point list. -/
theorem createGPXContent_data_nil (showNum : ℚ → String) (now : String) :
    (createGPXContent showNum now []).data =
      gpxH1 ++ (now.data ++ (gpxH2 ++ gpxH3)) := by
  show (_ ++ _ ++ _ ++ _ ++ _ : String).data = _
  rw [String.data_append, String.data_append, String.data_append,
    String.data_append]
  simp [String.intercalate, gpxH1, gpxH2, gpxH3, List.append_assoc]

/-- Character-level decomposition of one track-point block. -/
theorem trkptBlock_data (showNum : ℚ → String) (now : String) (p : ℚ × ℚ) :
    (trkptBlock showNum now p).data =
      "    <trkpt lat=\"".data ++ ((showNum p.1).data ++ ("\" lon=\"".data ++
        ((showNum p.2).data ++ ("\">\n      <time>".data ++ (now.data ++
          "</time>\n    </trkpt>".data))))) := by
  show (_ ++ _ ++ _ ++ _ ++ _ ++ _ ++ _ : String).data = _
  simp [String.data_append, List.append_assoc]

theorem scanFooter_trk {α : Type} (emit : List Char → α) :
    scanAt "<trk>".data emit gpxH3 = [] := by
  simp +decide [scanAt, gpxH3]

theorem scanFooter_trkseg {α : Type} (emit : List Char → α) :
    scanAt "<trkseg>".data emit gpxH3 = [] := by
  simp +decide [scanAt, gpxH3]

theorem scanFooter_time {α : Type} (emit : List Char → α) :
    scanAt "<time>".data emit gpxH3 = [] := by
  simp +decide [scanAt, gpxH3]

theorem scanFooter_trkpt {α : Type} (emit : List Char → α) :
    scanAt "<trkpt lat=\"".data emit gpxH3 = [] := by
  simp +decide [scanAt, gpxH3]

theorem scanBlock_trk {α : Type} (emit : List Char → α)
    (showNum : ℚ → String) (now : String) (p : ℚ × ℚ)
    (hlat : ∀ c ∈ (showNum p.1).data, c ≠ '<')
    (hlng : ∀ c ∈ (showNum p.2).data, c ≠ '<')
    (hnow : ∀ c ∈ now.data, c ≠ '<') (s : List Char) :
    scanAt "<trk>".data emit ((trkptBlock showNum now p).data ++ s) =
      scanAt "<trk>".data emit s := by
  rw [trkptBlock_data]
  simp +decide [scanAt, List.append_assoc]
  rw [scanAt_skip ['t', 'r', 'k', '>'] emit (showNum p.1).data hlat]
  simp +decide [scanAt, List.append_assoc]
  rw [scanAt_skip ['t', 'r', 'k', '>'] emit (showNum p.2).data hlng]
  simp +decide [scanAt, List.append_assoc]
  rw [scanAt_skip ['t', 'r', 'k', '>'] emit now.data hnow]
  simp +decide [scanAt, List.append_assoc]

theorem scanBlock_trkseg {α : Type} (emit : List Char → α)
    (showNum : ℚ → String) (now : String) (p : ℚ × ℚ)
    (hlat : ∀ c ∈ (showNum p.1).data, c ≠ '<')
    (hlng : ∀ c ∈ (showNum p.2).data, c ≠ '<')
    (hnow : ∀ c ∈ now.data, c ≠ '<') (s : List Char) :
    scanAt "<trkseg>".data emit ((trkptBlock showNum now p).data ++ s) =
      scanAt "<trkseg>".data emit s := by
  rw [trkptBlock_data]
  simp +decide [scanAt, List.append_assoc]
  rw [scanAt_skip ['t', 'r', 'k', 's', 'e', 'g', '>'] emit (showNum p.1).data hlat]
  simp +decide [scanAt, List.append_assoc]
  rw [scanAt_skip ['t', 'r', 'k', 's', 'e', 'g', '>'] emit (showNum p.2).data hlng]
  simp +decide [scanAt, List.append_assoc]
  rw [scanAt_skip ['t', 'r', 'k', 's', 'e', 'g', '>'] emit now.data hnow]
  simp +decide [scanAt, List.append_assoc]

theorem extractTimes_block (showNum : ℚ → String) (now : String) (p : ℚ × ℚ)
    (hlat : ∀ c ∈ (showNum p.1).data, c ≠ '<')
    (hlng : ∀ c ∈ (showNum p.2).data, c ≠ '<')
    (hnow : ∀ c ∈ now.data, c ≠ '<') (s : List Char) :
    extractTimes ((trkptBlock showNum now p).data ++ s) =
      now :: extractTimes s := by
  unfold extractTimes
  rw [trkptBlock_data]
  simp +decide [scanAt, List.append_assoc]
  rw [scanAt_skip ['t', 'i', 'm', 'e', '>'] _ (showNum p.1).data hlat]
  simp +decide [scanAt, List.append_assoc]
  rw [scanAt_skip ['t', 'i', 'm', 'e', '>'] _ (showNum p.2).data hlng]
  simp +decide [scanAt, List.append_assoc]
  rw [scanAt_skip ['t', 'i', 'm', 'e', '>'] _ now.data hnow]
  rw [takeWhile_append_all now.data _ (fun c hc => by simp [hnow c hc])]
  simp +decide [scanAt, List.takeWhile_cons]

theorem drop_strlen_add (t : String) (r : List Char) (k : Nat) :
    (t.data ++ r).drop (t.length + k) = r.drop k := by
  have h1 : t.length = t.data.length := rfl
  rw [h1, ← List.drop_drop, List.drop_left]

theorem extractTrkpts_block (showNum : ℚ → String) (now : String) (p : ℚ × ℚ)
    (hlat : ∀ c ∈ (showNum p.1).data, c ≠ '<' ∧ c ≠ '"')
    (hlng : ∀ c ∈ (showNum p.2).data, c ≠ '<' ∧ c ≠ '"')
    (hnow : ∀ c ∈ now.data, c ≠ '<') (s : List Char) :
    extractTrkpts ((trkptBlock showNum now p).data ++ s) =
      (showNum p.1, showNum p.2) :: extractTrkpts s := by
  unfold extractTrkpts
  rw [trkptBlock_data]
  simp +decide [scanAt, List.append_assoc]
  rw [scanAt_skip ['t', 'r', 'k', 'p', 't', ' ', 'l', 'a', 't', '=', '"'] _
    (showNum p.1).data (fun c hc => (hlat c hc).1)]
  simp +decide [scanAt, List.append_assoc]
  rw [scanAt_skip ['t', 'r', 'k', 'p', 't', ' ', 'l', 'a', 't', '=', '"'] _
    (showNum p.2).data (fun c hc => (hlng c hc).1)]
  simp +decide [scanAt, List.append_assoc]
  rw [scanAt_skip ['t', 'r', 'k', 'p', 't', ' ', 'l', 'a', 't', '=', '"'] _
    now.data hnow]
  rw [takeWhile_append_all (showNum p.1).data _
    (fun c hc => by simp [(hlat c hc).2])]
  simp +decide [scanAt, List.takeWhile_cons, List.drop_left', drop_strlen_add]
  rw [takeWhile_append_all (showNum p.2).data _
    (fun c hc => by simp [(hlng c hc).2])]
  simp +decide [List.takeWhile_cons]

theorem scanHead_trk (now : String) (hnow : ∀ c ∈ now.data, c ≠ '<')
    (s : List Char) :
    scanAt "<trk>".data (fun _ => ()) (gpxH1 ++ (now.data ++ (gpxH2 ++ s))) =
      () :: scanAt "<trk>".data (fun _ => ()) s := by
  simp +decide [scanAt, gpxH1, List.append_assoc]
  rw [scanAt_skip ['t', 'r', 'k', '>'] _ now.data hnow]
  simp +decide [scanAt, gpxH2, List.append_assoc]

theorem scanHead_trkseg (now : String) (hnow : ∀ c ∈ now.data, c ≠ '<')
    (s : List Char) :
    scanAt "<trkseg>".data (fun _ => ()) (gpxH1 ++ (now.data ++ (gpxH2 ++ s))) =
      () :: scanAt "<trkseg>".data (fun _ => ()) s := by
  simp +decide [scanAt, gpxH1, List.append_assoc]
  rw [scanAt_skip ['t', 'r', 'k', 's', 'e', 'g', '>'] _ now.data hnow]
  simp +decide [scanAt, gpxH2, List.append_assoc]

theorem extractTimes_header (now : String) (hnow : ∀ c ∈ now.data, c ≠ '<')
    (s : List Char) :
    extractTimes (gpxH1 ++ (now.data ++ (gpxH2 ++ s))) =
      now :: extractTimes s := by
  unfold extractTimes
  simp +decide [scanAt, gpxH1, List.append_assoc]
  rw [scanAt_skip ['t', 'i', 'm', 'e', '>'] _ now.data hnow]
  rw [takeWhile_append_all now.data _ (fun c hc => by simp [hnow c hc])]
  simp +decide [scanAt, gpxH2, List.takeWhile_cons, List.append_assoc]

theorem extractTrkpts_header (now : String) (hnow : ∀ c ∈ now.data, c ≠ '<')
    (s : List Char) :
    extractTrkpts (gpxH1 ++ (now.data ++ (gpxH2 ++ s))) = extractTrkpts s := by
  unfold extractTrkpts
  simp +decide [scanAt, gpxH1, List.append_assoc]
  rw [scanAt_skip ['t', 'r', 'k', 'p', 't', ' ', 'l', 'a', 't', '=', '"'] _
    now.data hnow]
  simp +decide [scanAt, gpxH2, List.append_assoc]

/-- Cleanliness hypothesis for the rendered coordinates of the points: the
number rendering contains no `<` and no `"`. -/
def cleanShow (showNum : ℚ → String) (pts : List (ℚ × ℚ)) : Prop :=
  ∀ q ∈ pts, (∀ c ∈ (showNum q.1).data, c ≠ '<' ∧ c ≠ '"') ∧
    (∀ c ∈ (showNum q.2).data, c ≠ '<' ∧ c ≠ '"')

theorem scanBlocks_trk (showNum : ℚ → String) (now : String)
    (hnow : ∀ c ∈ now.data, c ≠ '<') (pts : List (ℚ × ℚ))
    (hs : cleanShow showNum pts) :
    scanAt "<trk>".data (fun _ => ())
      (joinData ['\n'] (pts.map (trkptBlock showNum now)) ++ gpxH3) = [] := by
  induction pts with
  | nil => simpa [joinData] using scanFooter_trk (fun _ => ())
  | cons p rest ih =>
    rw [List.map_cons, joinData, List.append_assoc, List.append_assoc]
    rw [show (['\n'] : List Char) ++ ((trkptBlock showNum now p).data ++
      (joinData ['\n'] (rest.map (trkptBlock showNum now)) ++ gpxH3)) =
      ['\n'] ++ ((trkptBlock showNum now p).data ++
      (joinData ['\n'] (rest.map (trkptBlock showNum now)) ++ gpxH3)) from rfl]
    rw [scanAt_skip ['t', 'r', 'k', '>'] _ ['\n'] (by decide)]
    rw [scanBlock_trk _ showNum now p
      (fun c hc => ((hs p (by simp)).1 c hc).1)
      (fun c hc => ((hs p (by simp)).2 c hc).1) hnow]
    exact ih (fun q hq => hs q (by simp [hq]))

theorem scanBlocks_trkseg (showNum : ℚ → String) (now : String)
    (hnow : ∀ c ∈ now.data, c ≠ '<') (pts : List (ℚ × ℚ))
    (hs : cleanShow showNum pts) :
    scanAt "<trkseg>".data (fun _ => ())
      (joinData ['\n'] (pts.map (trkptBlock showNum now)) ++ gpxH3) = [] := by
  induction pts with
  | nil => simpa [joinData] using scanFooter_trkseg (fun _ => ())
  | cons p rest ih =>
    rw [List.map_cons, joinData, List.append_assoc, List.append_assoc]
    rw [scanAt_skip ['t', 'r', 'k', 's', 'e', 'g', '>'] _ ['\n'] (by decide)]
    rw [scanBlock_trkseg _ showNum now p
      (fun c hc => ((hs p (by simp)).1 c hc).1)
      (fun c hc => ((hs p (by simp)).2 c hc).1) hnow]
    exact ih (fun q hq => hs q (by simp [hq]))

theorem extractTimes_blocks (showNum : ℚ → String) (now : String)
    (hnow : ∀ c ∈ now.data, c ≠ '<') (pts : List (ℚ × ℚ))
    (hs : cleanShow showNum pts) :
    extractTimes (joinData ['\n'] (pts.map (trkptBlock showNum now)) ++ gpxH3) =
      pts.map (fun _ => now) := by
  induction pts with
  | nil =>
    simpa [joinData, extractTimes] using
      scanFooter_time (fun cs =>
        String.mk ((cs.drop 5).takeWhile (fun d => d ≠ '<')))
  | cons p rest ih =>
    rw [List.map_cons, joinData, List.append_assoc, List.append_assoc]
    rw [show extractTimes (['\n'] ++ ((trkptBlock showNum now p).data ++
        (joinData ['\n'] (rest.map (trkptBlock showNum now)) ++ gpxH3))) =
      scanAt "<time>".data (fun cs =>
        String.mk ((cs.drop 5).takeWhile (fun d => d ≠ '<')))
        (['\n'] ++ ((trkptBlock showNum now p).data ++
        (joinData ['\n'] (rest.map (trkptBlock showNum now)) ++ gpxH3)))
      from rfl]
    rw [scanAt_skip ['t', 'i', 'm', 'e', '>'] _ ['\n'] (by decide)]
    rw [show scanAt "<time>".data (fun cs =>
        String.mk ((cs.drop 5).takeWhile (fun d => d ≠ '<')))
        ((trkptBlock showNum now p).data ++
        (joinData ['\n'] (rest.map (trkptBlock showNum now)) ++ gpxH3)) =
      extractTimes ((trkptBlock showNum now p).data ++
        (joinData ['\n'] (rest.map (trkptBlock showNum now)) ++ gpxH3))
      from rfl]
    rw [extractTimes_block showNum now p
      (fun c hc => ((hs p (by simp)).1 c hc).1)
      (fun c hc => ((hs p (by simp)).2 c hc).1) hnow]
    rw [ih (fun q hq => hs q (by simp [hq]))]
    simp

theorem extractTrkpts_blocks (showNum : ℚ → String) (now : String)
    (hnow : ∀ c ∈ now.data, c ≠ '<') (pts : List (ℚ × ℚ))
    (hs : cleanShow showNum pts) :
    extractTrkpts (joinData ['\n'] (pts.map (trkptBlock showNum now)) ++ gpxH3) =
      pts.map (fun q => (showNum q.1, showNum q.2)) := by
  induction pts with
  | nil =>
    simpa [joinData, extractTrkpts] using
      scanFooter_trkpt (fun cs =>
        let afterLat := cs.drop 11
        let latS := afterLat.takeWhile (fun d => d ≠ '"')
        let afterLon := (afterLat.drop latS.length).drop 7
        (String.mk latS, String.mk (afterLon.takeWhile (fun d => d ≠ '"'))))
  | cons p rest ih =>
    rw [List.map_cons, joinData, List.append_assoc, List.append_assoc]
    rw [show extractTrkpts (['\n'] ++ ((trkptBlock showNum now p).data ++
        (joinData ['\n'] (rest.map (trkptBlock showNum now)) ++ gpxH3))) =
      scanAt "<trkpt lat=\"".data (fun cs =>
        let afterLat := cs.drop 11
        let latS := afterLat.takeWhile (fun d => d ≠ '"')
        let afterLon := (afterLat.drop latS.length).drop 7
        (String.mk latS, String.mk (afterLon.takeWhile (fun d => d ≠ '"'))))
        (['\n'] ++ ((trkptBlock showNum now p).data ++
        (joinData ['\n'] (rest.map (trkptBlock showNum now)) ++ gpxH3)))
      from rfl]
    rw [scanAt_skip ['t', 'r', 'k', 'p', 't', ' ', 'l', 'a', 't', '=', '"'] _
      ['\n'] (by decide)]
    rw [show scanAt "<trkpt lat=\"".data (fun cs =>
        let afterLat := cs.drop 11
        let latS := afterLat.takeWhile (fun d => d ≠ '"')
        let afterLon := (afterLat.drop latS.length).drop 7
        (String.mk latS, String.mk (afterLon.takeWhile (fun d => d ≠ '"'))))
        ((trkptBlock showNum now p).data ++
        (joinData ['\n'] (rest.map (trkptBlock showNum now)) ++ gpxH3)) =
      extractTrkpts ((trkptBlock showNum now p).data ++
        (joinData ['\n'] (rest.map (trkptBlock showNum now)) ++ gpxH3))
      from rfl]
    rw [extractTrkpts_block showNum now p (hs p (by simp)).1 (hs p (by simp)).2
      hnow]
    rw [ih (fun q hq => hs q (by simp [hq]))]
    simp

/-- Claim C7: for a non-empty point list the generated GPX document contains
exactly one `<trk>` and one `<trkseg>` element; its `<trkpt>` elements carry
the rendered coordinates of the input points, one per point in input order;
and there is one timestamp element per track point (plus the metadata one).
The hypotheses state that the timestamp and the rendered numbers contain no
markup characters, which is true of `toISOString` and JS number rendering. -/
theorem gpx_document_structure (showNum : ℚ → String) (now : String)
    (pts : List (ℚ × ℚ)) (hne : pts ≠ [])
    (hnow : ∀ c ∈ now.data, c ≠ '<') (hs : cleanShow showNum pts) :
    countOcc "<trk>".data (createGPXContent showNum now pts).data = 1 ∧
      countOcc "<trkseg>".data (createGPXContent showNum now pts).data = 1 ∧
      extractTrkpts (createGPXContent showNum now pts).data =
        pts.map (fun q => (showNum q.1, showNum q.2)) ∧
      (extractTimes (createGPXContent showNum now pts).data).length =
        pts.length + 1 := by
  match pts, hne with
  | p :: rest, _ =>
    have hp1 : ∀ c ∈ (showNum p.1).data, c ≠ '<' :=
      fun c hc => ((hs p (by simp)).1 c hc).1
    have hp2 : ∀ c ∈ (showNum p.2).data, c ≠ '<' :=
      fun c hc => ((hs p (by simp)).2 c hc).1
    have hrest : cleanShow showNum rest := fun q hq => hs q (by simp [hq])
    rw [createGPXContent_data]
    refine ⟨?_, ?_, ?_, ?_⟩
    · unfold countOcc
      rw [scanHead_trk now hnow, scanBlock_trk _ showNum now p hp1 hp2 hnow,
        scanBlocks_trk showNum now hnow rest hrest]
      rfl
    · unfold countOcc
      rw [scanHead_trkseg now hnow,
        scanBlock_trkseg _ showNum now p hp1 hp2 hnow,
        scanBlocks_trkseg showNum now hnow rest hrest]
      rfl
    · rw [extractTrkpts_header now hnow,
        extractTrkpts_block showNum now p (hs p (by simp)).1
          (hs p (by simp)).2 hnow,
        extractTrkpts_blocks showNum now hnow rest hrest]
      simp
    · rw [extractTimes_header now hnow,
        extractTimes_block showNum now p hp1 hp2 hnow,
        extractTimes_blocks showNum now hnow rest hrest]
      simp

/-- Witness for C7 on a one-point path with a constant number rendering. -/
theorem gpx_document_structure_witness :
    ([((0 : ℚ), (0 : ℚ))] ≠ ([] : List (ℚ × ℚ))) ∧
      (countOcc "<trk>".data (createGPXContent (fun _ => "0")
        "2025-01-01T00:00:00.000Z" [((0 : ℚ), (0 : ℚ))]).data = 1 ∧
      countOcc "<trkseg>".data (createGPXContent (fun _ => "0")
        "2025-01-01T00:00:00.000Z" [((0 : ℚ), (0 : ℚ))]).data = 1 ∧
      extractTrkpts (createGPXContent (fun _ => "0")
        "2025-01-01T00:00:00.000Z" [((0 : ℚ), (0 : ℚ))]).data =
        [((0 : ℚ), (0 : ℚ))].map (fun q =>
          ((fun (_ : ℚ) => "0") q.1, (fun (_ : ℚ) => "0") q.2)) ∧
      (extractTimes (createGPXContent (fun _ => "0")
        "2025-01-01T00:00:00.000Z" [((0 : ℚ), (0 : ℚ))]).data).length =
        [((0 : ℚ), (0 : ℚ))].length + 1) :=
  ⟨by simp, gpx_document_structure (fun _ => "0") "2025-01-01T00:00:00.000Z"
    [((0 : ℚ), (0 : ℚ))] (by simp) (by decide)
    (fun q _ => ⟨fun c hc => by simp at hc; subst hc; decide,
      fun c hc => by simp at hc; subst hc; decide⟩)⟩

/-- Claim C10: every `<time>` element of the generated document — the
metadata one and the one inside each `<trkpt>` — carries the same single
generation timestamp `now`, captured once. -/
theorem gpx_single_generation_timestamp (showNum : ℚ → String) (now : String)
    (pts : List (ℚ × ℚ)) (hnow : ∀ c ∈ now.data, c ≠ '<')
    (hs : cleanShow showNum pts) :
    extractTimes (createGPXContent showNum now pts).data =
      List.replicate (pts.length + 1) now := by
  cases pts with
  | nil =>
    rw [createGPXContent_data_nil, extractTimes_header now hnow]
    rw [show extractTimes gpxH3 = scanAt "<time>".data (fun cs =>
      String.mk ((cs.drop 5).takeWhile (fun d => d ≠ '<'))) gpxH3 from rfl]
    rw [scanFooter_time]
    rfl
  | cons p rest =>
    have hp1 : ∀ c ∈ (showNum p.1).data, c ≠ '<' :=
      fun c hc => ((hs p (by simp)).1 c hc).1
    have hp2 : ∀ c ∈ (showNum p.2).data, c ≠ '<' :=
      fun c hc => ((hs p (by simp)).2 c hc).1
    have hrest : cleanShow showNum rest := fun q hq => hs q (by simp [hq])
    rw [createGPXContent_data, extractTimes_header now hnow,
      extractTimes_block showNum now p hp1 hp2 hnow,
      extractTimes_blocks showNum now hnow rest hrest]
    simp [List.replicate_succ]

/-- Witness for C10 on a one-point path. -/
theorem gpx_single_generation_timestamp_witness :
    extractTimes (createGPXContent (fun _ => "0")
      "2025-01-01T00:00:00.000Z" [((0 : ℚ), (0 : ℚ))]).data =
      List.replicate ([((0 : ℚ), (0 : ℚ))].length + 1)
        "2025-01-01T00:00:00.000Z" :=
  gpx_single_generation_timestamp (fun _ => "0") "2025-01-01T00:00:00.000Z"
    [((0 : ℚ), (0 : ℚ))] (by decide)
    (fun q _ => ⟨fun c hc => by simp at hc; subst hc; decide,
      fun c hc => by simp at hc; subst hc; decide⟩)

/-- Claim C1 counterexample: with three identical pixel points — a degenerate
configuration the claim says must fail with `DegenerateConfiguration` —
`computeAffineTransform` does not fail (its Gaussian elimination has no error
path at all): it returns a six-entry parameter array, every entry of which is
non-finite (`NaN` from the unguarded `0/0`), i.e. a silently unusable
transform instead of an error. -/
theorem collinear_returns_nan_counterexample :
    computeAffineTransform (0, 0) (0, 0) (0, 0) (1, 2) (3, 4) (5, 6) =
      List.replicate 6 none := by
  rw [computeAffineTransform, solve, elimLoopJ_six]
  simp +decide [stepJ, maxRowJ, swapRowsJ, elimBelowJ, backSubJ, backRowJ,
    finRange_six_reverse, ks_zero, ks_one, ks_two, ks_three, ks_four, ks_five,
    Function.update, List.ofFn_succ, List.replicate]

/-- Claim C1, amended: on a degenerate (identical-pixel-point) configuration
`computeAffineTransform` never signals an error — no `DegenerateConfiguration`
exists in the code — and, whatever the three geographic points are, it
returns the six-entry array all of whose entries are non-finite (`NaN`). -/
theorem collinear_returns_nan (q1 q2 q3 : ℚ × ℚ) :
    computeAffineTransform (0, 0) (0, 0) (0, 0) q1 q2 q3 =
      List.replicate 6 none := by
  rw [computeAffineTransform, solve, elimLoopJ_six]
  simp +decide [stepJ, maxRowJ, swapRowsJ, elimBelowJ, backSubJ, backRowJ,
    finRange_six_reverse, ks_zero, ks_one, ks_two, ks_three, ks_four, ks_five,
    Function.update, List.ofFn_succ, List.replicate]

/-! ### Exact-arithmetic analysis of the elimination

`Sol s v` is preserved by every row swap and (as long as the pivot row has
zeroes left of the diagonal) by every elimination pass, in both directions:
the row operations are invertible. -/

theorem ks_mem (i k : Fin 6) : k ∈ ks i ↔ i < k := by
  simp [ks, List.mem_filter, List.mem_finRange]

theorem foldl_argmax_mem (f : Fin 6 → ℚ) (l : List (Fin 6)) (r0 : Fin 6) :
    l.foldl (fun r k => if |f r| < |f k| then k else r) r0 ∈ r0 :: l := by
  induction l generalizing r0 with
  | nil => simp
  | cons k0 t ih =>
    rw [List.foldl_cons]
    rcases List.mem_cons.mp (ih (if |f r0| < |f k0| then k0 else r0)) with h | h
    · rw [h]
      by_cases hc : |f r0| < |f k0| <;> simp [hc]
    · simp [h]

theorem foldl_argmax_le (f : Fin 6 → ℚ) (l : List (Fin 6)) (r0 : Fin 6) :
    ∀ k ∈ r0 :: l, |f k| ≤
      |f (l.foldl (fun r k => if |f r| < |f k| then k else r) r0)| := by
  induction l generalizing r0 with
  | nil =>
    intro k hk
    simp at hk
    subst hk
    simp
  | cons k0 t ih =>
    intro k hk
    rw [List.foldl_cons]
    have step : |f r0| ≤ |f (if |f r0| < |f k0| then k0 else r0)| ∧
        |f k0| ≤ |f (if |f r0| < |f k0| then k0 else r0)| := by
      by_cases hc : |f r0| < |f k0|
      · rw [if_pos hc]; exact ⟨hc.le, le_rfl⟩
      · rw [if_neg hc]; exact ⟨le_rfl, le_of_not_lt hc⟩
    rcases List.mem_cons.mp hk with h | h
    · subst h
      exact le_trans step.1 (ih _ _ (List.mem_cons_self _ _))
    rcases List.mem_cons.mp h with h' | h'
    · subst h'
      exact le_trans step.2 (ih _ _ (List.mem_cons_self _ _))
    · exact ih _ k (List.mem_cons_of_mem _ h')

theorem maxRowQ_mem (m : Fin 6 → Fin 6 → ℚ) (i : Fin 6) :
    maxRowQ m i ∈ i :: ks i :=
  foldl_argmax_mem (fun k => m k i) (ks i) i

theorem maxRowQ_ge (m : Fin 6 → Fin 6 → ℚ) (i : Fin 6) :
    i ≤ maxRowQ m i := by
  rcases List.mem_cons.mp (maxRowQ_mem m i) with h | h
  · simp [h]
  · exact le_of_lt ((ks_mem i _).mp h)

theorem maxRowQ_max (m : Fin 6 → Fin 6 → ℚ) (i : Fin 6) :
    ∀ k : Fin 6, i ≤ k → |m k i| ≤ |m (maxRowQ m i) i| := by
  intro k hk
  rcases eq_or_lt_of_le hk with h | h
  · exact h ▸ foldl_argmax_le (fun k => m k i) (ks i) i i
      (List.mem_cons_self _ _)
  · exact foldl_argmax_le (fun k => m k i) (ks i) i k
      (List.mem_cons_of_mem _ ((ks_mem i k).mpr h))

theorem sol_swap (s : GaussQ) (i r : Fin 6) (v : Fin 6 → ℚ) :
    Sol (swapRowsQ s i r) v ↔ Sol s v := by
  set σ : Fin 6 → Fin 6 :=
    fun k => if k = i then r else if k = r then i else k with hσ
  have hm : ∀ k, (swapRowsQ s i r).m k = s.m (σ k) := by
    intro k
    simp only [swapRowsQ, hσ]
    by_cases hki : k = i
    · simp [hki, apply_ite]
    · by_cases hkr : k = r
      · by_cases hri : r = i <;> simp [hki, hkr, hri]
      · simp [hki, hkr]
  have hb : ∀ k, (swapRowsQ s i r).b k = s.b (σ k) := by
    intro k
    simp only [swapRowsQ, hσ]
    by_cases hki : k = i
    · simp [hki, apply_ite]
    · by_cases hkr : k = r
      · by_cases hri : r = i <;> simp [hki, hkr, hri]
      · simp [hki, hkr]
  have hσσ : ∀ k : Fin 6, σ (σ k) = k := by
    intro k
    simp only [hσ]
    by_cases hki : k = i
    · by_cases hri : r = i <;> simp [hki, hri]
    · by_cases hkr : k = r <;> simp [hki, hkr]
  unfold Sol
  constructor
  · intro h k
    have h2 := h (σ k)
    rw [hm, hb, hσσ k] at h2
    exact h2
  · intro h k
    rw [hm, hb]
    exact h _

theorem elimBelowQ_row_eq (i : Fin 6) (s : GaussQ) (k : Fin 6) (hik : i < k)
    (hrow : ∀ j : Fin 6, (j : ℕ) < (i : ℕ) → s.m i j = 0) (j : Fin 6) :
    (elimBelowQ i s).m k j = s.m k j - s.m k i / s.m i i * s.m i j := by
  simp only [elimBelowQ]
  by_cases hij : i ≤ j
  · rw [if_pos ⟨hik, hij⟩]
  · rw [if_neg (by tauto)]
    rw [hrow j (Fin.lt_def.mp (lt_of_not_le hij)), mul_zero, sub_zero]

theorem elimBelowQ_m_lo (i : Fin 6) (s : GaussQ) (k : Fin 6) (hik : ¬ i < k) :
    (elimBelowQ i s).m k = s.m k := by
  funext j
  simp [elimBelowQ, hik]

theorem elimBelowQ_b_lo (i : Fin 6) (s : GaussQ) (k : Fin 6) (hik : ¬ i < k) :
    (elimBelowQ i s).b k = s.b k := by
  simp [elimBelowQ, hik]

theorem elimBelowQ_b_eq (i : Fin 6) (s : GaussQ) (k : Fin 6) (hik : i < k) :
    (elimBelowQ i s).b k = s.b k - s.m k i / s.m i i * s.b i := by
  simp [elimBelowQ, hik]

theorem elim_sum (i : Fin 6) (s : GaussQ) (k : Fin 6) (hik : i < k)
    (hrow : ∀ j : Fin 6, (j : ℕ) < (i : ℕ) → s.m i j = 0) (v : Fin 6 → ℚ) :
    (∑ j : Fin 6, (elimBelowQ i s).m k j * v j) =
      (∑ j : Fin 6, s.m k j * v j) -
        s.m k i / s.m i i * (∑ j : Fin 6, s.m i j * v j) := by
  rw [Finset.mul_sum, ← Finset.sum_sub_distrib]
  apply Finset.sum_congr rfl
  intro j _
  rw [elimBelowQ_row_eq i s k hik hrow j]
  ring

theorem sol_elimBelow (i : Fin 6) (s : GaussQ)
    (hrow : ∀ j : Fin 6, (j : ℕ) < (i : ℕ) → s.m i j = 0) (v : Fin 6 → ℚ) :
    Sol (elimBelowQ i s) v ↔ Sol s v := by
  unfold Sol
  constructor
  · intro h k
    by_cases hik : i < k
    · have hi := h i
      rw [elimBelowQ_m_lo i s i (lt_irrefl i), elimBelowQ_b_lo i s i (lt_irrefl i)] at hi
      have hk := h k
      rw [elim_sum i s k hik hrow v, elimBelowQ_b_eq i s k hik, hi] at hk
      linarith
    · have hk := h k
      rw [elimBelowQ_m_lo i s k hik, elimBelowQ_b_lo i s k hik] at hk
      exact hk
  · intro h k
    by_cases hik : i < k
    · rw [elim_sum i s k hik hrow v, elimBelowQ_b_eq i s k hik, h k, h i]
    · rw [elimBelowQ_m_lo i s k hik, elimBelowQ_b_lo i s k hik]
      exact h k

theorem elim_swap_pres (s : GaussQ) (i r : Fin 6) (hir : i ≤ r) (n : Nat)
    (hn : n ≤ (i : ℕ)) (hInv : Elim s.m n) : Elim (swapRowsQ s i r).m n := by
  intro k j hj hjk
  simp only [swapRowsQ]
  by_cases hki : k = i
  · rw [if_pos hki]
    exact hInv r j hj
      (lt_of_lt_of_le (lt_of_lt_of_le hj hn) (Fin.le_def.mp hir))
  · by_cases hkr : k = r
    · rw [if_neg hki, if_pos hkr]
      exact hInv i j hj (lt_of_lt_of_le hj hn)
    · rw [if_neg hki, if_neg hkr]
      exact hInv k j hj hjk

theorem elim_elimBelow_pres (i : Fin 6) (s : GaussQ)
    (hInv : Elim s.m (i : ℕ)) (hpiv : s.m i i ≠ 0) :
    Elim (elimBelowQ i s).m ((i : ℕ) + 1) := by
  intro k j hj hjk
  simp only [elimBelowQ]
  by_cases hik : i < k ∧ i ≤ j
  · rw [if_pos hik]
    have hjfin : j = i :=
      Fin.ext (le_antisymm (by omega) (Fin.le_def.mp hik.2))
    subst hjfin
    rw [div_mul_cancel₀ _ hpiv, sub_self]
  · rw [if_neg hik]
    rcases not_and_or.mp hik with hc | hc
    · exact hInv k j (by
        have hk : (k : ℕ) ≤ (i : ℕ) := Fin.le_def.mp (le_of_not_lt hc)
        omega) hjk
    · exact hInv k j (Fin.lt_def.mp (lt_of_not_le hc)) hjk

theorem stepQ_freeze (i : Fin 6) (s : GaussQ) (r : Fin 6) (hr : r < i) :
    (stepQ i s).m r = s.m r ∧ (stepQ i s).b r = s.b r := by
  have hmax := maxRowQ_ge s.m i
  have hri : r ≠ i := ne_of_lt hr
  have hrm : r ≠ maxRowQ s.m i := ne_of_lt (lt_of_lt_of_le hr hmax)
  constructor
  · funext j
    simp [stepQ, elimBelowQ, swapRowsQ, hri, hrm, lt_asymm hr]
  · simp [stepQ, elimBelowQ, swapRowsQ, hri, hrm, lt_asymm hr]

theorem stepQ_m_of_m (i : Fin 6) (s t : GaussQ) (h : s.m = t.m) :
    (stepQ i s).m = (stepQ i t).m := by
  funext k j
  simp only [stepQ, elimBelowQ, swapRowsQ, maxRowQ, h]

theorem stepQ_zero_b (i : Fin 6) (s : GaussQ) (hb : s.b = fun _ => 0) :
    (stepQ i s).b = fun _ => 0 := by
  funext k
  simp [stepQ, elimBelowQ, swapRowsQ, hb]

/-- If the system of the state is nonsingular (trivial kernel) and the first
`i` columns are eliminated, the pivot chosen at step `i` cannot be zero:
otherwise the whole subcolumn is zero and a bordered matrix with an all-zero
row produces a nonzero kernel vector. -/
theorem pivot_ne_zero (i : Fin 6) (s : GaussQ)
    (hInv : Elim s.m (i : ℕ)) (hker : kernelTrivial s.m) :
    (swapRowsQ s i (maxRowQ s.m i)).m i i ≠ 0 := by
  intro hpiv
  have hswap : (swapRowsQ s i (maxRowQ s.m i)).m i i = s.m (maxRowQ s.m i) i := by
    simp [swapRowsQ]
  rw [hswap] at hpiv
  have hcol : ∀ k : Fin 6, i ≤ k → s.m k i = 0 := by
    intro k hk
    have h1 := maxRowQ_max s.m i k hk
    rw [hpiv] at h1
    simpa using h1
  set M : Matrix (Fin 6) (Fin 6) ℚ := Matrix.of (fun r c =>
    if (r : ℕ) ≤ (i : ℕ) ∧ (c : ℕ) ≤ (i : ℕ) then s.m r c
    else if r = c then 1 else 0) with hM
  have hMrc : ∀ r c, M r c =
      if (r : ℕ) ≤ (i : ℕ) ∧ (c : ℕ) ≤ (i : ℕ) then s.m r c
      else if r = c then 1 else 0 := fun r c => rfl
  have hrowz : ∀ c, M i c = 0 := by
    intro c
    rw [hMrc]
    by_cases hc : (c : ℕ) ≤ (i : ℕ)
    · rw [if_pos ⟨le_refl _, hc⟩]
      rcases eq_or_lt_of_le hc with h | h
      · rw [show c = i from Fin.ext h]
        exact hcol i (le_refl i)
      · exact hInv i c h h
    · rw [if_neg (by tauto), if_neg (by
        intro hh
        exact hc (by rw [← hh]))]
  have hdet : M.det = 0 := Matrix.det_eq_zero_of_row_eq_zero i hrowz
  obtain ⟨w, hw0, hwM⟩ := Matrix.exists_mulVec_eq_zero_iff.mpr hdet
  have hsum : ∀ r : Fin 6, (∑ c : Fin 6, M r c * w c) = 0 := by
    intro r
    have h2 := congrFun hwM r
    simpa [Matrix.mulVec, Matrix.dotProduct] using h2
  have hhi : ∀ r : Fin 6, (i : ℕ) < (r : ℕ) → w r = 0 := by
    intro r hr
    have hsingle : (∑ c : Fin 6, M r c * w c) = M r r * w r := by
      apply Finset.sum_eq_single_of_mem r (Finset.mem_univ r)
      intro c _ hcr
      rw [hMrc, if_neg (by omega), if_neg (fun hh => hcr hh.symm), zero_mul]
    have h3 := hsum r
    rw [hsingle, hMrc, if_neg (by omega), if_pos rfl, one_mul] at h3
    exact h3
  have hkerw : ∀ r : Fin 6, (∑ j : Fin 6, s.m r j * w j) = 0 := by
    intro r
    by_cases hr : (r : ℕ) ≤ (i : ℕ)
    · calc (∑ j : Fin 6, s.m r j * w j) = ∑ c : Fin 6, M r c * w c := by
            apply Finset.sum_congr rfl
            intro c _
            by_cases hc : (c : ℕ) ≤ (i : ℕ)
            · rw [hMrc, if_pos ⟨hr, hc⟩]
            · rw [hhi c (by omega), mul_zero, mul_zero]
        _ = 0 := hsum r
    · apply Finset.sum_eq_zero
      intro c _
      by_cases hc : (c : ℕ) ≤ (i : ℕ)
      · rcases eq_or_lt_of_le hc with h | h
        · rw [show c = i from Fin.ext h,
            hcol r (Fin.le_def.mpr (by omega)), zero_mul]
        · rw [hInv r c h (by omega), zero_mul]
      · rw [hhi c (by omega), mul_zero]
  exact hw0 (hker w hkerw)

/-- The elimination-loop invariant: after `n` steps the first `n` columns are
eliminated, the solution set is unchanged, the system stays nonsingular, rows
already processed are frozen, and every pivot encountered was non-zero. -/
theorem elimLoopQ_chain (s0 : GaussQ) (hker0 : kernelTrivial s0.m) :
    ∀ n : Nat, n ≤ 6 →
      Elim (elimLoopQ s0 n).m n ∧
      (∀ v, Sol (elimLoopQ s0 n) v ↔ Sol s0 v) ∧
      kernelTrivial (elimLoopQ s0 n).m ∧
      (∀ r : Fin 6, (r : ℕ) < n →
        (elimLoopQ s0 n).m r = (elimLoopQ s0 ((r : ℕ) + 1)).m r) ∧
      (∀ r : Fin 6, (r : ℕ) < n → pivotQ s0 r ≠ 0) := by
  intro n
  induction n with
  | zero =>
    intro _
    refine ⟨?_, fun v => Iff.rfl, hker0, ?_, ?_⟩
    · intro k j hj _
      omega
    · intro r hr
      omega
    · intro r hr
      omega
  | succ n ih =>
    intro hn6
    have hn : n < 6 := by omega
    have IH := ih (by omega)
    set i : Fin 6 := ⟨n, hn⟩ with hi
    have hstep : elimLoopQ s0 (n + 1) = stepQ i (elimLoopQ s0 n) := by
      simp [elimLoopQ, hn, hi]
    set s := elimLoopQ s0 n with hs
    have hElim : Elim s.m (i : ℕ) := IH.1
    have hpiv : (swapRowsQ s i (maxRowQ s.m i)).m i i ≠ 0 :=
      pivot_ne_zero i s hElim IH.2.2.1
    have hswapInv : Elim (swapRowsQ s i (maxRowQ s.m i)).m n :=
      elim_swap_pres s i _ (maxRowQ_ge s.m i) n (le_refl _) IH.1
    have hrowSwap : ∀ j : Fin 6, (j : ℕ) < (i : ℕ) →
        (swapRowsQ s i (maxRowQ s.m i)).m i j = 0 :=
      fun j hj => hswapInv i j hj hj
    have hpivQ : pivotQ s0 i ≠ 0 := hpiv
    have hSolStep : ∀ v, Sol (stepQ i s) v ↔ Sol s v := by
      intro v
      calc Sol (stepQ i s) v
          ↔ Sol (swapRowsQ s i (maxRowQ s.m i)) v :=
            sol_elimBelow i _ hrowSwap v
        _ ↔ Sol s v := sol_swap s i _ v
    refine ⟨?_, ?_, ?_, ?_, ?_⟩
    · rw [hstep]
      exact elim_elimBelow_pres i _ hswapInv hpiv
    · intro v
      rw [hstep]
      exact (hSolStep v).trans (IH.2.1 v)
    · rw [hstep]
      intro w hw
      have hmt : (stepQ i ⟨s.m, fun _ => 0⟩).m = (stepQ i s).m :=
        stepQ_m_of_m i _ s rfl
      have hbt : (stepQ i ⟨s.m, fun _ => 0⟩).b = fun _ => 0 :=
        stepQ_zero_b i _ rfl
      have hsolt : Sol (stepQ i ⟨s.m, fun _ => 0⟩) w := by
        intro r
        rw [hmt, hbt]
        exact hw r
      have hrowSwap0 : ∀ j : Fin 6, (j : ℕ) < (i : ℕ) →
          (swapRowsQ ⟨s.m, fun _ => 0⟩ i (maxRowQ s.m i)).m i j = 0 :=
        hrowSwap
      have h1 : Sol (stepQ i ⟨s.m, fun _ => 0⟩) w ↔
          Sol ⟨s.m, fun _ => 0⟩ w := by
        calc Sol (stepQ i ⟨s.m, fun _ => 0⟩) w
            ↔ Sol (swapRowsQ ⟨s.m, fun _ => 0⟩ i
                (maxRowQ s.m i)) w :=
              sol_elimBelow i (swapRowsQ ⟨s.m, fun _ => 0⟩ i
                (maxRowQ s.m i)) hrowSwap0 w
          _ ↔ Sol ⟨s.m, fun _ => 0⟩ w := sol_swap _ i _ w
      have hkert : ∀ r : Fin 6, (∑ j : Fin 6, s.m r j * w j) = 0 :=
        fun r => (h1.mp hsolt) r
      exact IH.2.2.1 w hkert
    · intro r hr
      rcases Nat.lt_succ_iff_lt_or_eq.mp hr with hlt | heq
      · rw [hstep, (stepQ_freeze i s r (Fin.lt_def.mpr hlt)).1]
        exact IH.2.2.2.1 r hlt
      · rw [heq, hstep]
    · intro r hr
      rcases Nat.lt_succ_iff_lt_or_eq.mp hr with hlt | heq
      · exact IH.2.2.2.2 r hlt
      · rw [show r = i from Fin.ext heq]
        exact hpivQ

theorem backSubQ_six (s : GaussQ) : backSubQ s =
    backRowQ s (backRowQ s (backRowQ s (backRowQ s (backRowQ s
      (backRowQ s (fun _ => 0) 5) 4) 3) 2) 1) 0 := by
  rw [backSubQ, finRange_six_reverse]
  rfl

theorem backSubQ_eq5 (s : GaussQ) : backSubQ s 5 = s.b 5 / s.m 5 5 := by
  rw [backSubQ_six]
  simp +decide [backRowQ, ks_zero, ks_one, ks_two, ks_three, ks_four, ks_five,
    Function.update]

theorem backSubQ_eq4 (s : GaussQ) :
    backSubQ s 4 = (s.b 4 - s.m 4 5 * backSubQ s 5) / s.m 4 4 := by
  rw [backSubQ_six]
  simp +decide [backRowQ, ks_zero, ks_one, ks_two, ks_three, ks_four, ks_five,
    Function.update]

theorem backSubQ_eq3 (s : GaussQ) :
    backSubQ s 3 = (s.b 3 - s.m 3 4 * backSubQ s 4 -
      s.m 3 5 * backSubQ s 5) / s.m 3 3 := by
  rw [backSubQ_six]
  simp +decide [backRowQ, ks_zero, ks_one, ks_two, ks_three, ks_four, ks_five,
    Function.update]

theorem backSubQ_eq2 (s : GaussQ) :
    backSubQ s 2 = (s.b 2 - s.m 2 3 * backSubQ s 3 - s.m 2 4 * backSubQ s 4 -
      s.m 2 5 * backSubQ s 5) / s.m 2 2 := by
  rw [backSubQ_six]
  simp +decide [backRowQ, ks_zero, ks_one, ks_two, ks_three, ks_four, ks_five,
    Function.update]

theorem backSubQ_eq1 (s : GaussQ) :
    backSubQ s 1 = (s.b 1 - s.m 1 2 * backSubQ s 2 - s.m 1 3 * backSubQ s 3 -
      s.m 1 4 * backSubQ s 4 - s.m 1 5 * backSubQ s 5) / s.m 1 1 := by
  rw [backSubQ_six]
  simp +decide [backRowQ, ks_zero, ks_one, ks_two, ks_three, ks_four, ks_five,
    Function.update]

theorem backSubQ_eq0 (s : GaussQ) :
    backSubQ s 0 = (s.b 0 - s.m 0 1 * backSubQ s 1 - s.m 0 2 * backSubQ s 2 -
      s.m 0 3 * backSubQ s 3 - s.m 0 4 * backSubQ s 4 -
      s.m 0 5 * backSubQ s 5) / s.m 0 0 := by
  rw [backSubQ_six]
  simp +decide [backRowQ, ks_zero, ks_one, ks_two, ks_three, ks_four, ks_five,
    Function.update]

/-- On an upper-triangular system with non-zero diagonal, the value computed
by back substitution solves every row equation. -/
theorem backSubQ_solves (s : GaussQ) (hup : Elim s.m 6)
    (hd : ∀ i : Fin 6, s.m i i ≠ 0) : Sol s (backSubQ s) := by
  have k5 : s.m 5 5 * backSubQ s 5 = s.b 5 := by
    rw [backSubQ_eq5, mul_comm, div_mul_cancel₀ _ (hd 5)]
  have k4 : s.m 4 4 * backSubQ s 4 = s.b 4 - s.m 4 5 * backSubQ s 5 := by
    rw [backSubQ_eq4, mul_comm, div_mul_cancel₀ _ (hd 4)]
  have k3 : s.m 3 3 * backSubQ s 3 =
      s.b 3 - s.m 3 4 * backSubQ s 4 - s.m 3 5 * backSubQ s 5 := by
    rw [backSubQ_eq3, mul_comm, div_mul_cancel₀ _ (hd 3)]
  have k2 : s.m 2 2 * backSubQ s 2 = s.b 2 - s.m 2 3 * backSubQ s 3 -
      s.m 2 4 * backSubQ s 4 - s.m 2 5 * backSubQ s 5 := by
    rw [backSubQ_eq2, mul_comm, div_mul_cancel₀ _ (hd 2)]
  have k1 : s.m 1 1 * backSubQ s 1 = s.b 1 - s.m 1 2 * backSubQ s 2 -
      s.m 1 3 * backSubQ s 3 - s.m 1 4 * backSubQ s 4 -
      s.m 1 5 * backSubQ s 5 := by
    rw [backSubQ_eq1, mul_comm, div_mul_cancel₀ _ (hd 1)]
  have k0 : s.m 0 0 * backSubQ s 0 = s.b 0 - s.m 0 1 * backSubQ s 1 -
      s.m 0 2 * backSubQ s 2 - s.m 0 3 * backSubQ s 3 -
      s.m 0 4 * backSubQ s 4 - s.m 0 5 * backSubQ s 5 := by
    rw [backSubQ_eq0, mul_comm, div_mul_cancel₀ _ (hd 0)]
  have h0 : (∑ j : Fin 6, s.m 0 j * backSubQ s j) = s.b 0 := by
    rw [Fin.sum_univ_six]
    linarith [k0]
  have h1 : (∑ j : Fin 6, s.m 1 j * backSubQ s j) = s.b 1 := by
    rw [Fin.sum_univ_six, hup 1 0 (by decide) (by decide)]
    linarith [k1]
  have h2 : (∑ j : Fin 6, s.m 2 j * backSubQ s j) = s.b 2 := by
    rw [Fin.sum_univ_six, hup 2 0 (by decide) (by decide),
      hup 2 1 (by decide) (by decide)]
    linarith [k2]
  have h3 : (∑ j : Fin 6, s.m 3 j * backSubQ s j) = s.b 3 := by
    rw [Fin.sum_univ_six, hup 3 0 (by decide) (by decide),
      hup 3 1 (by decide) (by decide), hup 3 2 (by decide) (by decide)]
    linarith [k3]
  have h4 : (∑ j : Fin 6, s.m 4 j * backSubQ s j) = s.b 4 := by
    rw [Fin.sum_univ_six, hup 4 0 (by decide) (by decide),
      hup 4 1 (by decide) (by decide), hup 4 2 (by decide) (by decide),
      hup 4 3 (by decide) (by decide)]
    linarith [k4]
  have h5 : (∑ j : Fin 6, s.m 5 j * backSubQ s j) = s.b 5 := by
    rw [Fin.sum_univ_six, hup 5 0 (by decide) (by decide),
      hup 5 1 (by decide) (by decide), hup 5 2 (by decide) (by decide),
      hup 5 3 (by decide) (by decide), hup 5 4 (by decide) (by decide)]
    linarith [k5]
  intro i
  fin_cases i
  · exact h0
  · exact h1
  · exact h2
  · exact h3
  · exact h4
  · exact h5

/-! ### Simulation: the JS-number run computes the exact-arithmetic run

As long as every pivot divided by is non-zero, all values stay finite and the
`JSNum` elimination computes exactly the rational one. -/

theorem maxRowJ_lift (s : GaussQ) (i : Fin 6) :
    maxRowJ (liftG s).m i = maxRowQ s.m i := by
  unfold maxRowJ maxRowQ
  congr 1
  funext r k
  simp [liftG, jgtb, jabs]

theorem swapRows_lift (s : GaussQ) (i r : Fin 6) :
    swapRowsJ (liftG s) i r = liftG (swapRowsQ s i r) := by
  have hm : (swapRowsJ (liftG s) i r).m = (liftG (swapRowsQ s i r)).m := by
    funext k j
    simp only [swapRowsJ, swapRowsQ, liftG]
    by_cases hki : k = i
    · rw [if_pos hki, if_pos hki]
    · rw [if_neg hki, if_neg hki]
      by_cases hkr : k = r
      · rw [if_pos hkr, if_pos hkr]
      · rw [if_neg hkr, if_neg hkr]
  have hb : (swapRowsJ (liftG s) i r).b = (liftG (swapRowsQ s i r)).b := by
    funext k
    simp only [swapRowsJ, swapRowsQ, liftG]
    by_cases hki : k = i
    · rw [if_pos hki, if_pos hki]
    · rw [if_neg hki, if_neg hki]
      by_cases hkr : k = r
      · rw [if_pos hkr, if_pos hkr]
      · rw [if_neg hkr, if_neg hkr]
  exact GaussJ.ext hm hb

theorem elimBelow_lift (i : Fin 6) (s : GaussQ) (hpiv : s.m i i ≠ 0) :
    elimBelowJ i (liftG s) = liftG (elimBelowQ i s) := by
  have hm : (elimBelowJ i (liftG s)).m = (liftG (elimBelowQ i s)).m := by
    funext k j
    simp only [elimBelowJ, elimBelowQ, liftG]
    by_cases h : i < k ∧ i ≤ j
    · rw [if_pos h, if_pos h]
      simp [jdiv, hpiv]
    · rw [if_neg h, if_neg h]
  have hb : (elimBelowJ i (liftG s)).b = (liftG (elimBelowQ i s)).b := by
    funext k
    simp only [elimBelowJ, elimBelowQ, liftG]
    by_cases h : i < k
    · rw [if_pos h, if_pos h]
      simp [jdiv, hpiv]
    · rw [if_neg h, if_neg h]
  exact GaussJ.ext hm hb

theorem stepJ_lift (i : Fin 6) (s : GaussQ)
    (hpiv : (swapRowsQ s i (maxRowQ s.m i)).m i i ≠ 0) :
    stepJ i (liftG s) = liftG (stepQ i s) := by
  unfold stepJ stepQ
  rw [maxRowJ_lift, swapRows_lift, elimBelow_lift _ _ hpiv]

theorem elimLoopJ_lift (s0 : GaussQ)
    (hpivs : ∀ r : Fin 6, pivotQ s0 r ≠ 0) :
    ∀ n : Nat, n ≤ 6 → elimLoopJ (liftG s0) n = liftG (elimLoopQ s0 n) := by
  intro n
  induction n with
  | zero => intro _; rfl
  | succ n ih =>
    intro hn6
    have hn : n < 6 := by omega
    rw [show elimLoopJ (liftG s0) (n + 1) =
      stepJ ⟨n, hn⟩ (elimLoopJ (liftG s0) n) from by simp [elimLoopJ, hn]]
    rw [show elimLoopQ s0 (n + 1) =
      stepQ ⟨n, hn⟩ (elimLoopQ s0 n) from by simp [elimLoopQ, hn]]
    rw [ih (by omega)]
    exact stepJ_lift ⟨n, hn⟩ _ (hpivs ⟨n, hn⟩)

theorem foldSum_lift (s : GaussQ) (i : Fin 6) (x : Fin 6 → ℚ)
    (x' : Fin 6 → JSNum) (hx : ∀ j, x' j = some (x j)) (l : List (Fin 6)) :
    ∀ acc : ℚ,
    l.foldl (fun a j => jsub a (jmul ((liftG s).m i j) (x' j))) (some acc) =
      some (l.foldl (fun a j => a - s.m i j * x j) acc) := by
  induction l with
  | nil => intro acc; rfl
  | cons j t ih =>
    intro acc
    rw [List.foldl_cons, List.foldl_cons, hx j]
    rw [show (liftG s).m i j = some (s.m i j) from rfl]
    rw [show jsub (some acc) (jmul (some (s.m i j)) (some (x j))) =
      some (acc - s.m i j * x j) from rfl]
    exact ih _

theorem backRowQ_lift (s : GaussQ) (x : Fin 6 → ℚ) (i : Fin 6)
    (hd : s.m i i ≠ 0) :
    backRowJ (liftG s) (fun j => some (x j)) i =
      fun j => some (backRowQ s x i j) := by
  funext j
  unfold backRowJ backRowQ
  by_cases hj : j = i
  · subst hj
    rw [Function.update_same, Function.update_same]
    rw [show (liftG s).b j = some (s.b j) from rfl]
    rw [foldSum_lift s j x (fun j => some (x j)) (fun _ => rfl) (ks j) (s.b j)]
    rw [show (liftG s).m j j = some (s.m j j) from rfl]
    simp [jdiv, hd]
  · rw [Function.update_noteq hj, Function.update_noteq hj]

theorem backSubJ_lift (s : GaussQ) (hd : ∀ i : Fin 6, s.m i i ≠ 0) :
    backSubJ (liftG s) = fun j => some (backSubQ s j) := by
  unfold backSubJ backSubQ
  rw [finRange_six_reverse]
  simp only [List.foldl_cons, List.foldl_nil]
  rw [show (fun _ : Fin 6 => some (0 : ℚ)) =
    (fun j => some ((fun _ : Fin 6 => (0 : ℚ)) j)) from rfl]
  rw [backRowQ_lift s _ 5 (hd 5), backRowQ_lift s _ 4 (hd 4),
    backRowQ_lift s _ 3 (hd 3), backRowQ_lift s _ 2 (hd 2),
    backRowQ_lift s _ 1 (hd 1), backRowQ_lift s _ 0 (hd 0)]

/-- Evaluating `applyAffineTransform` on a six-entry finite parameter list. -/
theorem applyAffine_ofFn (x y : ℚ) (g : Fin 6 → ℚ) :
    applyAffineTransform (some x) (some y) (List.ofFn (fun j => some (g j))) =
      (some (g 0 * x + g 1 * y + g 2), some (g 3 * x + g 4 * y + g 5)) := rfl

/-- Non-collinear pixel points make the interleaved system nonsingular: the
homogeneous system has only the zero solution (by explicit cofactor
combinations of the row equations). -/
theorem affine_kernelTrivial (p1 p2 p3 : ℚ × ℚ) (hD : det3 p1 p2 p3 ≠ 0) :
    kernelTrivial (affineMatrix p1 p2 p3) := by
  intro w hw
  simp only [det3] at hD
  have e0 := hw 0
  have e1 := hw 1
  have e2 := hw 2
  have e3 := hw 3
  have e4 := hw 4
  have e5 := hw 5
  rw [Fin.sum_univ_six] at e0 e1 e2 e3 e4 e5
  simp at e0 e1 e2 e3 e4 e5
  have h0 : w 0 = 0 := by
    have key : (p1.1 * (p2.2 - p3.2) - p1.2 * (p2.1 - p3.1) +
        (p2.1 * p3.2 - p3.1 * p2.2)) * w 0 = 0 := by
      linear_combination (p2.2 - p3.2) * e0 + (p3.2 - p1.2) * e2 +
        (p1.2 - p2.2) * e4
    exact (mul_eq_zero.mp key).resolve_left hD
  have h1 : w 1 = 0 := by
    have key : (p1.1 * (p2.2 - p3.2) - p1.2 * (p2.1 - p3.1) +
        (p2.1 * p3.2 - p3.1 * p2.2)) * w 1 = 0 := by
      linear_combination (p3.1 - p2.1) * e0 + (p1.1 - p3.1) * e2 +
        (p2.1 - p1.1) * e4
    exact (mul_eq_zero.mp key).resolve_left hD
  have h2 : w 2 = 0 := by
    have key : (p1.1 * (p2.2 - p3.2) - p1.2 * (p2.1 - p3.1) +
        (p2.1 * p3.2 - p3.1 * p2.2)) * w 2 = 0 := by
      linear_combination (p2.1 * p3.2 - p3.1 * p2.2) * e0 +
        (p3.1 * p1.2 - p1.1 * p3.2) * e2 + (p1.1 * p2.2 - p2.1 * p1.2) * e4
    exact (mul_eq_zero.mp key).resolve_left hD
  have h3 : w 3 = 0 := by
    have key : (p1.1 * (p2.2 - p3.2) - p1.2 * (p2.1 - p3.1) +
        (p2.1 * p3.2 - p3.1 * p2.2)) * w 3 = 0 := by
      linear_combination (p2.2 - p3.2) * e1 + (p3.2 - p1.2) * e3 +
        (p1.2 - p2.2) * e5
    exact (mul_eq_zero.mp key).resolve_left hD
  have h4 : w 4 = 0 := by
    have key : (p1.1 * (p2.2 - p3.2) - p1.2 * (p2.1 - p3.1) +
        (p2.1 * p3.2 - p3.1 * p2.2)) * w 4 = 0 := by
      linear_combination (p3.1 - p2.1) * e1 + (p1.1 - p3.1) * e3 +
        (p2.1 - p1.1) * e5
    exact (mul_eq_zero.mp key).resolve_left hD
  have h5 : w 5 = 0 := by
    have key : (p1.1 * (p2.2 - p3.2) - p1.2 * (p2.1 - p3.1) +
        (p2.1 * p3.2 - p3.1 * p2.2)) * w 5 = 0 := by
      linear_combination (p2.1 * p3.2 - p3.1 * p2.2) * e1 +
        (p3.1 * p1.2 - p1.1 * p3.2) * e3 + (p1.1 * p2.2 - p2.1 * p1.2) * e5
    exact (mul_eq_zero.mp key).resolve_left hD
  funext j
  fin_cases j
  · exact h0
  · exact h1
  · exact h2
  · exact h3
  · exact h4
  · exact h5

/-- Claim C2: for three reference pairs with non-collinear pixel points,
applying the transform computed by `computeAffineTransform` back to each of
the three pixel points reproduces that point's geographic coordinates — in
this exact-arithmetic model of JS numbers the round trip is exact, hence
well within any floating-point tolerance. -/
theorem affine_roundtrip (p1 p2 p3 q1 q2 q3 : ℚ × ℚ)
    (hD : det3 p1 p2 p3 ≠ 0) :
    applyAffineTransform (some p1.1) (some p1.2)
        (computeAffineTransform p1 p2 p3 q1 q2 q3) = (some q1.1, some q1.2) ∧
      applyAffineTransform (some p2.1) (some p2.2)
        (computeAffineTransform p1 p2 p3 q1 q2 q3) = (some q2.1, some q2.2) ∧
      applyAffineTransform (some p3.1) (some p3.2)
        (computeAffineTransform p1 p2 p3 q1 q2 q3) = (some q3.1, some q3.2) := by
  set s0 : GaussQ := ⟨affineMatrix p1 p2 p3, affineRhs q1 q2 q3⟩ with hs0
  have hker0 : kernelTrivial s0.m := affine_kernelTrivial p1 p2 p3 hD
  have chain := elimLoopQ_chain s0 hker0 6 (le_refl 6)
  have hpivs : ∀ r : Fin 6, pivotQ s0 r ≠ 0 := fun r => chain.2.2.2.2 r r.isLt
  have hup : Elim (elimLoopQ s0 6).m 6 := chain.1
  have hdiag : ∀ r : Fin 6, (elimLoopQ s0 6).m r r ≠ 0 := by
    intro r
    have hr6 : (r : ℕ) < 6 := r.isLt
    have hfr : (elimLoopQ s0 6).m r = (elimLoopQ s0 ((r : ℕ) + 1)).m r :=
      chain.2.2.2.1 r r.isLt
    have hstep : elimLoopQ s0 ((r : ℕ) + 1) =
        stepQ ⟨(r : ℕ), hr6⟩ (elimLoopQ s0 (r : ℕ)) := by
      simp [elimLoopQ, hr6]
    have hfin : (⟨(r : ℕ), hr6⟩ : Fin 6) = r := Fin.ext rfl
    have hpq : (elimLoopQ s0 ((r : ℕ) + 1)).m r r = pivotQ s0 r := by
      rw [hstep, hfin]
      unfold stepQ pivotQ
      rw [elimBelowQ_m_lo _ _ _ (lt_irrefl r)]
    rw [hfr, hpq]
    exact hpivs r
  have hsolF : Sol (elimLoopQ s0 6) (backSubQ (elimLoopQ s0 6)) :=
    backSubQ_solves _ hup hdiag
  have hsol0 : Sol s0 (backSubQ (elimLoopQ s0 6)) :=
    (chain.2.1 _).mp hsolF
  have hjs : computeAffineTransform p1 p2 p3 q1 q2 q3 =
      List.ofFn (fun j => some (backSubQ (elimLoopQ s0 6) j)) := by
    show solve (liftG s0).m (liftG s0).b = _
    unfold solve
    rw [show (⟨(liftG s0).m, (liftG s0).b⟩ : GaussJ) = liftG s0 from rfl]
    rw [elimLoopJ_lift s0 hpivs 6 (le_refl 6)]
    rw [backSubJ_lift _ hdiag]
  have r0 := hsol0 0
  have r1 := hsol0 1
  have r2 := hsol0 2
  have r3 := hsol0 3
  have r4 := hsol0 4
  have r5 := hsol0 5
  rw [hs0, Fin.sum_univ_six] at r0 r1 r2 r3 r4 r5
  simp at r0 r1 r2 r3 r4 r5
  rw [hjs]
  refine ⟨?_, ?_, ?_⟩
  · rw [applyAffine_ofFn, hs0]
    simp only [Prod.mk.injEq, Option.some.injEq]
    constructor
    · linear_combination r0
    · linear_combination r1
  · rw [applyAffine_ofFn, hs0]
    simp only [Prod.mk.injEq, Option.some.injEq]
    constructor
    · linear_combination r2
    · linear_combination r3
  · rw [applyAffine_ofFn, hs0]
    simp only [Prod.mk.injEq, Option.some.injEq]
    constructor
    · linear_combination r4
    · linear_combination r5

/-- Witness for the round-trip law at the concrete non-collinear pixel points
(0,0), (1,0), (0,1) mapped to geo points (10,20), (11,20), (10,21): the
determinant hypothesis holds and the solved transform sends the first pixel
point back to its geo pair. -/
theorem affine_roundtrip_witness :
    det3 ((0 : ℚ), 0) (1, 0) (0, 1) ≠ 0 ∧
      applyAffineTransform (some 0) (some 0)
          (computeAffineTransform ((0 : ℚ), 0) (1, 0) (0, 1) (10, 20) (11, 20) (10, 21)) =
        (some 10, some 20) :=
  ⟨by norm_num [det3],
   (affine_roundtrip ((0 : ℚ), 0) (1, 0) (0, 1) (10, 20) (11, 20) (10, 21)
      (by norm_num [det3])).1⟩

end ImgToGpx
